import Mathlib

/-!
The class `fixed_priority_multi_queue` of MultiQueue/multi_queue.hpp.

A shallow embedding of the class template `fixed_priority_multi_queue<ELEMENT_T>` and
proofs about its operations.

Data model.  The only attribute is `std::vector<std::queue<ELEMENT_T>> queues`.
A `std::queue` is modelled by the list of its elements, front first; the vector by the
list of its sub-queues, index 0 first.  `size_type` is `std::size_t`, modelled by `Nat`
with the one arithmetic operation the class performs on a caller-supplied value
(`priority + 1` in `push`) reduced modulo `SIZE_MAX + 1`.  The element count summed by
`size()` is the number of objects held in memory, which is below `SIZE_MAX`, so that sum
is left unreduced.  Memory is otherwise unbounded in the model: a push needs the
`priority + 1` sub-queues it allocates to be a representable count (`priority < SIZE_MAX`),
which is the form the specification's proviso "subject to available memory" takes here.

Operations whose C++ behaviour is undefined on some inputs (`top` and `pop` dereference
`queues.end()` on an empty container, `push` indexes the vector out of range) return
`Option`, with `none` standing for the undefined behaviour.

Where the identity of storage matters (whether two objects share what they hold), the
objects live in a heap: a list of the storage owned by each object, addressed by position.
A member call changes the storage at the address of the object it is made on, so two
names of one address see each other's calls, and a copy is independent of its source
exactly because the copy operations of `std::vector` give the copy storage of its own.
-/

namespace MultiQueue

/-- Largest value of `std::size_t` (64-bit target). -/
def SIZE_MAX : Nat := 2 ^ 64 - 1

/-- The class `fixed_priority_multi_queue<ELEMENT_T>`: its single attribute `queues`. -/
structure fixed_priority_multi_queue (α : Type) where
  queues : List (List α)
  deriving DecidableEq

/-- The call `std::vector::resize(n)`: keeps the first `n` sub-queues and pads with
default-constructed (empty) sub-queues up to length `n`. -/
def resize {α : Type} (qs : List (List α)) (n : Nat) : List (List α) :=
  qs.take n ++ List.replicate (n - qs.length) []

/-- The loop `while (qptr != queues.end() && qptr->empty()) ++qptr;` started at
`queues.begin()`: the offset of `qptr` from `queues.begin()` when the loop exits. -/
def scan {α : Type} : List (List α) → Nat
  | [] => 0
  | q :: qs => if q.isEmpty then scan qs + 1 else 0

namespace fixed_priority_multi_queue

variable {α : Type}

/-- The constructor `fixed_priority_multi_queue() = default`: no sub-queues. -/
def ctor_default : fixed_priority_multi_queue α := ⟨[]⟩

/-- The member `max_priority()`: `queues.size()`. -/
def max_priority (mq : fixed_priority_multi_queue α) : Nat := mq.queues.length

/-- The member `size()`: the loop `for (auto const& q : queues) nElements += q.size();`
from `nElements = 0`. -/
def size (mq : fixed_priority_multi_queue α) : Nat :=
  mq.queues.foldl (fun nElements q => nElements + q.length) 0

/-- The member `empty()`: `size() == 0`. -/
def empty (mq : fixed_priority_multi_queue α) : Bool := mq.size == 0

/-- The member `top()` (non-const overload): scan, then `qptr->front()`.
When the scan stops at `queues.end()` the dereference is undefined: `none`.  (The scan
never stops at an empty sub-queue, so the case `some []` does not arise.) -/
def top (mq : fixed_priority_multi_queue α) : Option α :=
  match mq.queues[scan mq.queues]? with
  | some (x :: _) => some x
  | _ => none

/-- The member `pop()`: scan, then `qptr->pop()`, which removes the front element of that
sub-queue.  When the scan stops at `queues.end()` the dereference is undefined: `none`. -/
def pop (mq : fixed_priority_multi_queue α) : Option (fixed_priority_multi_queue α) :=
  match mq.queues[scan mq.queues]? with
  | some (_ :: rest) => some ⟨mq.queues.set (scan mq.queues) rest⟩
  | _ => none

/-- The first statement of `push`:
`if (priority >= queues.size()) queues.resize(priority + 1);`
with `priority + 1` computed in `size_type`. -/
def push_grow (mq : fixed_priority_multi_queue α) (priority : Nat) : List (List α) :=
  if priority ≥ mq.queues.length then
    resize mq.queues ((priority + 1) % (SIZE_MAX + 1))
  else
    mq.queues

/-- The member `push(value, priority)` (the lvalue and rvalue overloads have the same
effect on the container): grow, then `queues[priority].push(value)`.
An out-of-range `queues[priority]` is undefined: `none`. -/
def push (mq : fixed_priority_multi_queue α) (value : α) (priority : Nat) :
    Option (fixed_priority_multi_queue α) :=
  match (mq.push_grow priority)[priority]? with
  | some q => some ⟨(mq.push_grow priority).set priority (q ++ [value])⟩
  | none => none

/-- The caller loop `for each (value, priority) in pairs: push(value, priority)`. -/
def push_all : fixed_priority_multi_queue α → List (α × Nat) →
    Option (fixed_priority_multi_queue α)
  | mq, [] => some mq
  | mq, (value, priority) :: rest =>
    match mq.push value priority with
    | some mq1 => push_all mq1 rest
    | none => none

/-- The caller loop `while (!empty()) { out.push_back(top()); pop(); }`, bounded by
`fuel` iterations; `none` when an operation is undefined or the fuel runs out before the
container is empty. -/
def drain : Nat → fixed_priority_multi_queue α → Option (List α)
  | 0, mq => if mq.empty then some [] else none
  | fuel + 1, mq =>
    if mq.empty then some []
    else
      match mq.top, mq.pop with
      | some v, some mq1 =>
        match drain fuel mq1 with
        | some vs => some (v :: vs)
        | none => none
      | _, _ => none

/-- The caller sequence of `k` consecutive calls `pop()`. -/
def pop_n : Nat → fixed_priority_multi_queue α → Option (fixed_priority_multi_queue α)
  | 0, mq => some mq
  | k + 1, mq =>
    match mq.pop with
    | some mq1 => pop_n k mq1
    | none => none

/-- One mutating call made by a caller: `push(value, priority)` or `pop()`. -/
inductive Op (α : Type) where
  | push (value : α) (priority : Nat)
  | pop

/-- A caller sequence of `push` and `pop` calls, executed in order; `none` as soon as one
call is undefined (a `pop()` on an empty container, an out-of-range `push`). -/
def run_ops : fixed_priority_multi_queue α → List (Op α) →
    Option (fixed_priority_multi_queue α)
  | mq, [] => some mq
  | mq, Op.push value priority :: ops =>
    match mq.push value priority with
    | some mq1 => run_ops mq1 ops
    | none => none
  | mq, Op.pop :: ops =>
    match mq.pop with
    | some mq1 => run_ops mq1 ops
    | none => none

/-- The caller obligation on a sequence of calls: every `pop()` of the sequence is made on
a container whose `empty()` is false at the time of the call. -/
def pops_on_nonempty : fixed_priority_multi_queue α → List (Op α) → Bool
  | _, [] => true
  | mq, Op.push value priority :: ops =>
    match mq.push value priority with
    | some mq1 => pops_on_nonempty mq1 ops
    | none => true
  | mq, Op.pop :: ops =>
    !mq.empty &&
      match mq.pop with
      | some mq1 => pops_on_nonempty mq1 ops
      | none => true

/-- The priorities of the `push` calls of a caller sequence, in call order. -/
def pushed_priorities : List (Op α) → List Nat
  | [] => []
  | Op.push _ priority :: ops => priority :: pushed_priorities ops
  | Op.pop :: ops => pushed_priorities ops

/-- The value the specification gives for `max_priority()`: one plus the largest priority
pushed, or 0 if nothing was pushed. -/
def one_plus_max (priorities : List Nat) : Nat :=
  match priorities.max? with
  | some m => m + 1
  | none => 0

/-- The pairs of `l` whose priority lies in `k .. k+n-1`, level after level in
ascending order, each level in the order of `l`. -/
def by_level (l : List (α × Nat)) (k n : Nat) : List (α × Nat) :=
  (List.range' k n).flatMap (fun j => l.filter (fun b => decide (b.2 = j)))

/-- The order "priority of `a` is at most the priority of `b`" on (value, priority) pairs. -/
def prio_le (a b : α × Nat) : Prop := a.2 ≤ b.2

instance prio_le_decidable : DecidableRel (prio_le : α × Nat → α × Nat → Prop) :=
  fun a b => inferInstanceAs (Decidable (a.2 ≤ b.2))

/-- The loop of the range constructor,
`while (beg != end) { push(beg->first, beg->second); ++beg; }`, where the range
`[beg, end)` is given by the list of the pairs it traverses. -/
def ctor_range_loop : fixed_priority_multi_queue α → List (α × Nat) →
    Option (fixed_priority_multi_queue α)
  | mq, [] => some mq
  | mq, x :: rest =>
    match mq.push x.1 x.2 with
    | some mq1 => ctor_range_loop mq1 rest
    | none => none

/-- The constructor `fixed_priority_multi_queue(FORWARD beg, FORWARD end)`: the member
`queues` is default-initialised (no sub-queues), then the loop runs. -/
def ctor_range (pairs : List (α × Nat)) : Option (fixed_priority_multi_queue α) :=
  ctor_range_loop ⟨[]⟩ pairs

/-- The constructor `fixed_priority_multi_queue(fixed_priority_multi_queue const& other)
= default`: member-wise copy, the vector of queues is copied element by element. -/
def ctor_copy (other : fixed_priority_multi_queue α) : fixed_priority_multi_queue α :=
  ⟨other.queues⟩

/-- The library call `std::move` on a `std::vector` followed by move construction or move
assignment of another vector from it: the pair (content received, content left in the
source).  The receiver takes over the storage and the source is left with no elements. -/
def vector_move (v : List (List α)) : List (List α) × List (List α) := (v, [])

/-- The constructor `fixed_priority_multi_queue(fixed_priority_multi_queue && other)
noexcept : queues(move(other.queues)) {}`: the pair (constructed object, `other`
afterwards). -/
def ctor_move (other : fixed_priority_multi_queue α) :
    fixed_priority_multi_queue α × fixed_priority_multi_queue α :=
  (⟨(vector_move other.queues).1⟩, ⟨(vector_move other.queues).2⟩)

/-- The copy assignment `operator = (fixed_priority_multi_queue const& other)`:
`queues = other.queues; return *this;`.  The pair (`*this` afterwards, `other`
afterwards); `other` is a reference to const. -/
def assign_copy (_this other : fixed_priority_multi_queue α) :
    fixed_priority_multi_queue α × fixed_priority_multi_queue α :=
  (⟨other.queues⟩, other)

/-- The move assignment `operator = (fixed_priority_multi_queue && other)`:
`queues = std::move(other.queues); return *this;`, for `other` an object distinct from
`*this`.  The pair (`*this` afterwards, `other` afterwards). -/
def assign_move (_this other : fixed_priority_multi_queue α) :
    fixed_priority_multi_queue α × fixed_priority_multi_queue α :=
  (⟨(vector_move other.queues).1⟩, ⟨(vector_move other.queues).2⟩)

/-- The member `swap(other)`: `std::swap(queues, other.queues);`.  The pair (`*this`
afterwards, `other` afterwards). -/
def swap (this other : fixed_priority_multi_queue α) :
    fixed_priority_multi_queue α × fixed_priority_multi_queue α :=
  (⟨other.queues⟩, ⟨this.queues⟩)

/-- The const overload `top() const`: the same scan, then `qptr->front()`. -/
def top_const (mq : fixed_priority_multi_queue α) : Option α :=
  match mq.queues[scan mq.queues]? with
  | some (x :: _) => some x
  | _ => none

/-- The caller loop `for each of n elements: { out.push_back(top()); pop(); }` (no test
of `empty()`): the values read and the container afterwards. -/
def read_n : Nat → fixed_priority_multi_queue α →
    Option (List α × fixed_priority_multi_queue α)
  | 0, mq => some ([], mq)
  | n + 1, mq =>
    match mq.top, mq.pop with
    | some v, some mq1 =>
      match read_n n mq1 with
      | some (vs, mq2) => some (v :: vs, mq2)
      | none => none
    | _, _ => none

/-- The caller loop `while (!empty()) pop();`, bounded by `fuel` iterations: the number
of calls to `pop()` made and the container afterwards; `none` when a `pop()` is undefined
or the fuel runs out before the loop exits. -/
def pop_while : Nat → fixed_priority_multi_queue α →
    Option (Nat × fixed_priority_multi_queue α)
  | 0, mq => if mq.empty then some (0, mq) else none
  | fuel + 1, mq =>
    if mq.empty then some (0, mq)
    else
      match mq.pop with
      | some mq1 =>
        match pop_while fuel mq1 with
        | some (n, mq2) => some (n + 1, mq2)
        | none => none
      | none => none

/-- A member call `push(value, priority)` or `pop()` made on the container object whose
storage is at address `r` of the heap `h`.  The heap lists the storage owned by the
container objects of a program: `h[r]` is what the vector `queues` of the object at
address `r` holds (its buffer of sub-queues and their elements).  Two names with the same
address are names of the same storage; objects with different addresses own different
storage.  The call reads and writes the storage at `r` only; `none` when nothing lives at
`r` or the call is undefined there. -/
def heap_call (h : List (fixed_priority_multi_queue α)) (r : Nat) (op : Op α) :
    Option (List (fixed_priority_multi_queue α)) :=
  match h[r]? with
  | some mq =>
    match mq.run_ops [op] with
    | some mq1 => some (h.set r mq1)
    | none => none
  | none => none

/-- A caller sequence of `push` and `pop` calls, all made on the object at address `r`. -/
def heap_run : List (fixed_priority_multi_queue α) → Nat → List (Op α) →
    Option (List (fixed_priority_multi_queue α))
  | h, _, [] => some h
  | h, r, op :: ops =>
    match heap_call h r op with
    | some h1 => heap_run h1 r ops
    | none => none

/-- The defaulted copy constructor on the heap: a new object is created from the object at
address `other`.  Its member `queues` is copy-constructed from `other.queues`, and the
copy constructor of `std::vector` allocates storage of its own and copies the elements
into it: the new object lives at a fresh address and holds `ctor_copy` of the source.
The result is the heap afterwards and the address of the new object. -/
def heap_ctor_copy (h : List (fixed_priority_multi_queue α)) (other : Nat) :
    Option (List (fixed_priority_multi_queue α) × Nat) :=
  match h[other]? with
  | some src => some (h ++ [ctor_copy src], h.length)
  | none => none

/-- The copy assignment on the heap, `this->queues = other.queues`: the copy assignment of
`std::vector` replaces what the storage of `*this` holds by copies of the elements of
`other`; both objects keep their own storage. -/
def heap_assign_copy (h : List (fixed_priority_multi_queue α)) (this other : Nat) :
    Option (List (fixed_priority_multi_queue α)) :=
  match h[this]?, h[other]? with
  | some dst, some src => some (h.set this (dst.assign_copy src).1)
  | _, _ => none

end fixed_priority_multi_queue

/-- The free function `swap(lhs, rhs)`: `lhs.swap(rhs);`.  The pair (`lhs` afterwards,
`rhs` afterwards). -/
def swap {α : Type} (lhs rhs : fixed_priority_multi_queue α) :
    fixed_priority_multi_queue α × fixed_priority_multi_queue α :=
  lhs.swap rhs

open fixed_priority_multi_queue

/-! ## The scan -/

theorem scan_le {α : Type} (qs : List (List α)) : scan qs ≤ qs.length := by
  induction qs with
  | nil => simp [scan]
  | cons q qs ih =>
    unfold scan
    split <;> simp; omega

theorem scan_before {α : Type} (qs : List (List α)) :
    ∀ j, j < scan qs → qs[j]? = some [] := by
  induction qs with
  | nil => intro j hj; simp [scan] at hj
  | cons q qs ih =>
    intro j hj
    unfold scan at hj
    split at hj
    · rename_i hq
      cases j with
      | zero => simpa using hq
      | succ j => simpa using ih j (by omega)
    · omega

theorem scan_at {α : Type} (qs : List (List α)) (h : scan qs < qs.length) :
    ∃ x rest, qs[scan qs]? = some (x :: rest) := by
  induction qs with
  | nil => simp [scan] at h
  | cons q qs ih =>
    unfold scan at h ⊢
    split
    · rename_i hq
      rw [if_pos hq] at h
      simpa using ih (by simpa using h)
    · rename_i hq
      cases q with
      | nil => simp at hq
      | cons x rest => exact ⟨x, rest, by simp⟩

theorem scan_lt_iff {α : Type} (qs : List (List α)) :
    scan qs < qs.length ↔ 0 < (qs.map List.length).sum := by
  induction qs with
  | nil => simp [scan]
  | cons q qs ih =>
    unfold scan
    cases q with
    | nil => simpa using ih
    | cons x rest => simp

theorem size_eq_sum {α : Type} (mq : fixed_priority_multi_queue α) :
    mq.size = (mq.queues.map List.length).sum := by
  have h : ∀ (qs : List (List α)) (n : Nat),
      qs.foldl (fun nElements q => nElements + q.length) n = n + (qs.map List.length).sum := by
    intro qs
    induction qs with
    | nil => intro n; simp
    | cons q qs ih => intro n; simp [ih]; omega
  simpa [fixed_priority_multi_queue.size] using h mq.queues 0

theorem empty_iff {α : Type} (mq : fixed_priority_multi_queue α) :
    mq.empty = true ↔ mq.size = 0 := by
  simp [fixed_priority_multi_queue.empty]

theorem pos_iff_not_empty {α : Type} (mq : fixed_priority_multi_queue α) :
    mq.empty = false ↔ 0 < mq.size := by
  simp [fixed_priority_multi_queue.empty]; omega

theorem scan_lt_iff_size {α : Type} (mq : fixed_priority_multi_queue α) :
    scan mq.queues < mq.queues.length ↔ 0 < mq.size := by
  rw [size_eq_sum]; exact scan_lt_iff mq.queues

/-- Replacing the sub-queue at an allocated index changes the sum of lengths by the
difference of the two lengths. -/
theorem sum_length_set {α : Type} (qs : List (List α)) (i : Nat) (q q1 : List α)
    (h : qs[i]? = some q) :
    ((qs.set i q1).map List.length).sum + q.length
      = (qs.map List.length).sum + q1.length := by
  induction qs generalizing i with
  | nil => simp at h
  | cons a qs ih =>
    cases i with
    | zero =>
      simp at h
      subst h
      simp; omega
    | succ i =>
      simp at h
      have := ih i h
      simp only [List.set_cons_succ, List.map_cons, List.sum_cons]; omega

/-! ## top and pop on a non-empty container -/

theorem top_pop_of_pos {α : Type} (mq : fixed_priority_multi_queue α) (h : 0 < mq.size) :
    ∃ x rest, mq.queues[scan mq.queues]? = some (x :: rest) ∧ mq.top = some x ∧
      mq.pop = some ⟨mq.queues.set (scan mq.queues) rest⟩ := by
  obtain ⟨x, rest, hx⟩ := scan_at mq.queues ((scan_lt_iff_size mq).2 h)
  exact ⟨x, rest, hx, by simp [fixed_priority_multi_queue.top, hx],
    by simp [fixed_priority_multi_queue.pop, hx]⟩

theorem top_pop_of_empty {α : Type} (mq : fixed_priority_multi_queue α) (h : mq.size = 0) :
    scan mq.queues = mq.queues.length ∧ mq.top = none ∧ mq.pop = none := by
  have h1 : ¬ scan mq.queues < mq.queues.length := by
    rw [scan_lt_iff_size]; omega
  have h2 : scan mq.queues = mq.queues.length := by
    have := scan_le mq.queues; omega
  have h3 : mq.queues[scan mq.queues]? = none := by simp [h2]
  exact ⟨h2, by simp [fixed_priority_multi_queue.top, h3],
    by simp [fixed_priority_multi_queue.pop, h3]⟩

theorem pop_size {α : Type} (mq mq1 : fixed_priority_multi_queue α) (h : 0 < mq.size)
    (hp : mq.pop = some mq1) : mq1.size + 1 = mq.size := by
  obtain ⟨x, rest, hx, -, hpop⟩ := top_pop_of_pos mq h
  rw [hpop] at hp
  cases hp
  have := sum_length_set mq.queues (scan mq.queues) (x :: rest) rest hx
  rw [size_eq_sum, size_eq_sum]
  simp at this ⊢
  omega

/-! ## push below the largest priority -/

theorem push_grow_eq {α : Type} (mq : fixed_priority_multi_queue α) (p : Nat)
    (hp : p < SIZE_MAX) :
    mq.push_grow p = mq.queues ++ List.replicate (p + 1 - mq.queues.length) [] := by
  unfold fixed_priority_multi_queue.push_grow
  split
  · rename_i hge
    rw [Nat.mod_eq_of_lt (by omega)]
    unfold resize
    rw [List.take_of_length_le (by omega)]
  · rename_i hlt
    have : p + 1 - mq.queues.length = 0 := by omega
    simp [this]

theorem push_grow_length {α : Type} (mq : fixed_priority_multi_queue α) (p : Nat)
    (hp : p < SIZE_MAX) :
    (mq.push_grow p).length = max mq.queues.length (p + 1) := by
  rw [push_grow_eq mq p hp]
  simp
  omega

theorem push_grow_getElem? {α : Type} (mq : fixed_priority_multi_queue α) (p j : Nat)
    (hp : p < SIZE_MAX) (hj : j < max mq.queues.length (p + 1)) :
    (mq.push_grow p)[j]? = some (mq.queues[j]?.getD []) := by
  rw [push_grow_eq mq p hp]
  by_cases h : j < mq.queues.length
  · rw [List.getElem?_append_left h]
    simp [List.getElem?_eq_getElem h]
  · rw [List.getElem?_append_right (by omega), List.getElem?_replicate_of_lt (by omega)]
    simp [List.getElem?_eq_none (Nat.le_of_not_lt h)]

theorem push_grow_sum {α : Type} (mq : fixed_priority_multi_queue α) (p : Nat)
    (hp : p < SIZE_MAX) :
    ((mq.push_grow p).map List.length).sum = (mq.queues.map List.length).sum := by
  rw [push_grow_eq mq p hp]
  simp

/-- Below the largest priority `push` is defined: it stores the value behind the content
of the sub-queue at `priority` in the grown sequence. -/
theorem push_eq {α : Type} (mq : fixed_priority_multi_queue α) (v : α) (p : Nat)
    (hp : p < SIZE_MAX) :
    mq.push v p = some ⟨(mq.push_grow p).set p (mq.queues[p]?.getD [] ++ [v])⟩ := by
  have h := push_grow_getElem? mq p p hp (by omega)
  simp [fixed_priority_multi_queue.push, h]

theorem push_size {α : Type} (mq mq1 : fixed_priority_multi_queue α) (v : α) (p : Nat)
    (hp : p < SIZE_MAX) (h : mq.push v p = some mq1) : mq1.size = mq.size + 1 := by
  rw [push_eq mq v p hp] at h
  cases h
  have h1 := sum_length_set (mq.push_grow p) p _ (mq.queues[p]?.getD [] ++ [v])
    (push_grow_getElem? mq p p hp (by omega))
  rw [push_grow_sum mq p hp] at h1
  rw [size_eq_sum, size_eq_sum]
  simp at h1 ⊢
  omega

theorem push_max_priority {α : Type} (mq mq1 : fixed_priority_multi_queue α) (v : α)
    (p : Nat) (hp : p < SIZE_MAX) (h : mq.push v p = some mq1) :
    mq1.max_priority = max mq.max_priority (p + 1) := by
  rw [push_eq mq v p hp] at h
  cases h
  simp [fixed_priority_multi_queue.max_priority, push_grow_length mq p hp]

theorem push_all_size {α : Type} (pairs : List (α × Nat))
    (hps : ∀ x ∈ pairs, x.2 < SIZE_MAX) (mq : fixed_priority_multi_queue α) :
    ∃ mqn, mq.push_all pairs = some mqn ∧ mqn.size = mq.size + pairs.length := by
  induction pairs generalizing mq with
  | nil => exact ⟨mq, rfl, by simp⟩
  | cons x rest ih =>
    obtain ⟨v, p⟩ := x
    have hp : p < SIZE_MAX := hps (v, p) (by simp)
    have h1 := push_eq mq v p hp
    obtain ⟨mqn, h2, h3⟩ := ih (fun y hy => hps y (by simp [hy])) _
    refine ⟨mqn, ?_, ?_⟩
    · simp only [fixed_priority_multi_queue.push_all, h1]
      exact h2
    · rw [h3, push_size mq _ v p hp h1]
      simp; omega

theorem push_of_ge {α : Type} (mq : fixed_priority_multi_queue α) (v : α) (p : Nat)
    (hge : mq.max_priority ≤ p) (hp : p < SIZE_MAX) :
    mq.push v p
      = some ⟨mq.queues ++ List.replicate (p - mq.max_priority) [] ++ [[v]]⟩ := by
  unfold fixed_priority_multi_queue.max_priority at hge ⊢
  rw [push_eq mq v p hp, push_grow_eq mq p hp]
  have h1 : p + 1 - mq.queues.length = (p - mq.queues.length) + 1 := by omega
  have h2 : mq.queues[p]? = none := List.getElem?_eq_none hge
  rw [h1, List.replicate_succ', ← List.append_assoc, h2]
  have h3 : (mq.queues ++ List.replicate (p - mq.queues.length) ([] : List α)).length = p := by
    simp; omega
  rw [List.set_append_right _ _ (by omega)]
  simp [h3]

theorem one_plus_max_cons (p : Nat) (ps : List Nat) :
    one_plus_max (p :: ps) = max (p + 1) (one_plus_max ps) := by
  unfold one_plus_max
  rw [List.max?_cons]
  cases ps.max? with
  | none => simp
  | some m => simp; omega

theorem pop_max_priority {α : Type} (mq mq1 : fixed_priority_multi_queue α)
    (h : mq.pop = some mq1) : mq1.max_priority = mq.max_priority := by
  unfold fixed_priority_multi_queue.pop at h
  split at h
  · cases h
    simp [fixed_priority_multi_queue.max_priority]
  · cases h

theorem run_ops_max_priority {α : Type} (ops : List (Op α))
    (hps : ∀ p ∈ pushed_priorities ops, p < SIZE_MAX)
    (mq mq1 : fixed_priority_multi_queue α) (h : mq.run_ops ops = some mq1) :
    mq1.max_priority = max mq.max_priority (one_plus_max (pushed_priorities ops)) := by
  induction ops generalizing mq with
  | nil =>
    simp [fixed_priority_multi_queue.run_ops] at h
    subst h
    simp [pushed_priorities, one_plus_max]
  | cons op ops ih =>
    cases op with
    | push v p =>
      have hp : p < SIZE_MAX := hps p (by simp [pushed_priorities])
      have h1 := push_eq mq v p hp
      simp only [fixed_priority_multi_queue.run_ops, h1] at h
      have h2 := ih (fun q hq => hps q (by simp [pushed_priorities, hq])) _ h
      rw [h2, push_max_priority mq _ v p hp h1]
      simp only [pushed_priorities, one_plus_max_cons]
      omega
    | pop =>
      simp only [fixed_priority_multi_queue.run_ops] at h
      split at h
      · rename_i mq2 hpop
        have h2 := ih (fun q hq => hps q (by simpa [pushed_priorities] using hq)) _ h
        rw [h2, pop_max_priority mq _ hpop]
        simp [pushed_priorities]
      · cases h

theorem run_ops_defined {α : Type} (ops : List (Op α))
    (hps : ∀ p ∈ pushed_priorities ops, p < SIZE_MAX)
    (mq : fixed_priority_multi_queue α) (hpop : mq.pops_on_nonempty ops = true) :
    ∃ mq1, mq.run_ops ops = some mq1 := by
  induction ops generalizing mq with
  | nil => exact ⟨mq, rfl⟩
  | cons op ops ih =>
    cases op with
    | push v p =>
      have hp : p < SIZE_MAX := hps p (by simp [pushed_priorities])
      have h1 := push_eq mq v p hp
      simp only [fixed_priority_multi_queue.pops_on_nonempty, h1] at hpop
      simp only [fixed_priority_multi_queue.run_ops, h1]
      exact ih (fun q hq => hps q (by simp [pushed_priorities, hq])) _ hpop
    | pop =>
      simp only [fixed_priority_multi_queue.pops_on_nonempty, Bool.and_eq_true,
        Bool.not_eq_true'] at hpop
      obtain ⟨x, rest, -, -, h1⟩ := top_pop_of_pos mq ((pos_iff_not_empty mq).1 hpop.1)
      have h2 := hpop.2
      simp only [h1] at h2
      simp only [fixed_priority_multi_queue.run_ops, h1]
      exact ih (fun q hq => hps q (by simpa [pushed_priorities] using hq)) _ h2

/-! ## Level-wise listing and the stable sort by priority -/

theorem by_level_succ {α : Type} (l : List (α × Nat)) (k n : Nat) :
    by_level l k (n + 1) = l.filter (fun b => decide (b.2 = k)) ++ by_level l (k + 1) n := by
  simp [by_level, List.range'_succ]

theorem by_level_ge {α : Type} (l : List (α × Nat)) (n k : Nat) :
    ∀ b ∈ by_level l k n, k ≤ b.2 := by
  induction n generalizing k with
  | zero => simp [by_level]
  | succ n ih =>
    intro b hb
    rw [by_level_succ, List.mem_append] at hb
    rcases hb with hb | hb
    · simp at hb
      omega
    · have := ih (k + 1) b hb
      omega

theorem by_level_cons_of_lt {α : Type} (a : α × Nat) (l : List (α × Nat)) (n k : Nat)
    (h : a.2 < k) : by_level (a :: l) k n = by_level l k n := by
  induction n generalizing k with
  | zero => simp [by_level]
  | succ n ih =>
    rw [by_level_succ, by_level_succ, ih (k + 1) (by omega)]
    have : ¬ a.2 = k := by omega
    simp [List.filter_cons, this]

theorem orderedInsert_of_all_le {α : Type} (a : α × Nat) (L : List (α × Nat))
    (h : ∀ b ∈ L, a.2 ≤ b.2) : L.orderedInsert prio_le a = a :: L := by
  cases L with
  | nil => rfl
  | cons b L => exact List.orderedInsert_of_le _ _ (h b (by simp))

theorem orderedInsert_append_of_lt {α : Type} (a : α × Nat) (A R : List (α × Nat))
    (h : ∀ b ∈ A, b.2 < a.2) :
    (A ++ R).orderedInsert prio_le a = A ++ R.orderedInsert prio_le a := by
  induction A with
  | nil => rfl
  | cons b A ih =>
    have hb : ¬ prio_le a b := by
      have := h b (by simp)
      unfold prio_le
      omega
    have ih1 := ih (fun c hc => h c (by simp [hc]))
    simp only [List.cons_append, List.orderedInsert, if_neg hb]
    exact congrArg (List.cons b) ih1

theorem by_level_cons {α : Type} (a : α × Nat) (l : List (α × Nat)) (n k : Nat)
    (h1 : k ≤ a.2) (h2 : a.2 < k + n) :
    by_level (a :: l) k n = (by_level l k n).orderedInsert prio_le a := by
  induction n generalizing k with
  | zero => omega
  | succ n ih =>
    rw [by_level_succ, by_level_succ]
    by_cases hk : a.2 = k
    · rw [by_level_cons_of_lt a l n (k + 1) (by omega), ← by_level_succ,
        orderedInsert_of_all_le a _ (fun b hb => by have := by_level_ge l (n + 1) k b hb; omega)]
      rw [by_level_succ]
      simp [List.filter_cons, hk]
    · rw [ih (k + 1) (by omega) (by omega), orderedInsert_append_of_lt]
      · simp [List.filter_cons, hk]
      · intro b hb
        simp at hb
        omega

theorem by_level_nil {α : Type} (n k : Nat) : by_level ([] : List (α × Nat)) k n = [] := by
  induction n generalizing k with
  | zero => simp [by_level]
  | succ n ih => rw [by_level_succ, ih]; rfl

/-- Listing the pairs level by level is the insertion sort by priority. -/
theorem by_level_eq_insertionSort {α : Type} (l : List (α × Nat)) (n : Nat)
    (h : ∀ b ∈ l, b.2 < n) : by_level l 0 n = l.insertionSort prio_le := by
  induction l with
  | nil => rw [by_level_nil]; rfl
  | cons a l ih =>
    rw [by_level_cons a l n 0 (Nat.zero_le _) (by have := h a (by simp); omega),
      ih (fun b hb => h b (by simp [hb]))]
    rfl

/-- The level-wise listing keeps, for each priority, exactly the pairs of that priority in
their original order. -/
theorem by_level_filter {α : Type} (l : List (α × Nat)) (p n k : Nat)
    (h1 : k ≤ p) (h2 : p < k + n) :
    (by_level l k n).filter (fun b => decide (b.2 = p))
      = l.filter (fun b => decide (b.2 = p)) := by
  induction n generalizing k with
  | zero => omega
  | succ n ih =>
    rw [by_level_succ, List.filter_append, List.filter_filter]
    by_cases hk : p = k
    · subst hk
      have hnil : (by_level l (p + 1) n).filter (fun b => decide (b.2 = p)) = [] := by
        rw [List.filter_eq_nil_iff]
        intro b hb
        have := by_level_ge l n (p + 1) b hb
        simp
        omega
      rw [hnil]
      simp
    · rw [ih (k + 1) (by omega) (by omega)]
      have : l.filter (fun a => decide (a.2 = p) && decide (a.2 = k)) = [] := by
        rw [List.filter_eq_nil_iff]
        intro b _
        simp
        omega
      rw [this]
      rfl

/-! ## Draining a container -/

theorem flatten_set_scan {α : Type} (qs : List (List α)) (x : α) (rest : List α)
    (h : qs[scan qs]? = some (x :: rest)) :
    qs.flatten = x :: (qs.set (scan qs) rest).flatten := by
  induction qs with
  | nil => simp at h
  | cons q qs ih =>
    unfold scan at h ⊢
    cases q with
    | nil =>
      simp at h
      simpa using ih h
    | cons y ys =>
      simp at h
      obtain ⟨rfl, rfl⟩ := h
      simp

theorem drain_eq_flatten {α : Type} (fuel : Nat) (mq : fixed_priority_multi_queue α)
    (h : mq.size ≤ fuel) : mq.drain fuel = some mq.queues.flatten := by
  induction fuel generalizing mq with
  | zero =>
    have h0 : mq.size = 0 := by omega
    have hf : mq.queues.flatten = [] := by
      apply List.eq_nil_of_length_eq_zero
      rw [List.length_flatten, ← size_eq_sum, h0]
    simp [fixed_priority_multi_queue.drain, (empty_iff mq).2 h0, hf]
  | succ fuel ih =>
    rcases Nat.eq_zero_or_pos mq.size with h0 | hpos
    · have hf : mq.queues.flatten = [] := by
        apply List.eq_nil_of_length_eq_zero
        rw [List.length_flatten, ← size_eq_sum, h0]
      simp [fixed_priority_multi_queue.drain, (empty_iff mq).2 h0, hf]
    · obtain ⟨x, rest, hx, htop, hpop⟩ := top_pop_of_pos mq hpos
      have hsz := pop_size mq _ hpos hpop
      have h1 := ih ⟨mq.queues.set (scan mq.queues) rest⟩ (by omega)
      simp only [fixed_priority_multi_queue.drain, (pos_iff_not_empty mq).2 hpos, htop, hpop, h1]
      simp [flatten_set_scan mq.queues x rest hx]

/-! ## The levels after a sequence of pushes -/

theorem push_level {α : Type} (mq mq1 : fixed_priority_multi_queue α) (v : α) (p : Nat)
    (hp : p < SIZE_MAX) (h : mq.push v p = some mq1) (j : Nat) :
    mq1.queues[j]?.getD []
      = if j = p then mq.queues[j]?.getD [] ++ [v] else mq.queues[j]?.getD [] := by
  rw [push_eq mq v p hp] at h
  cases h
  have hlen := push_grow_length mq p hp
  by_cases hj : j = p
  · subst hj
    simp [List.getElem?_set, hlen]
  · rw [if_neg hj]
    simp only [List.getElem?_set, if_neg (Ne.symm hj)]
    by_cases hlt : j < max mq.queues.length (p + 1)
    · rw [push_grow_getElem? mq p j hp hlt]
      rfl
    · rw [List.getElem?_eq_none (by omega), List.getElem?_eq_none (by omega)]

theorem push_all_levels {α : Type} (pairs : List (α × Nat))
    (hps : ∀ x ∈ pairs, x.2 < SIZE_MAX) (mq : fixed_priority_multi_queue α) :
    ∃ mqn, mq.push_all pairs = some mqn ∧ mq.queues.length ≤ mqn.queues.length ∧
      (∀ x ∈ pairs, x.2 < mqn.queues.length) ∧
      ∀ j : Nat, mqn.queues[j]?.getD []
        = mq.queues[j]?.getD [] ++ (pairs.filter (fun b => decide (b.2 = j))).map Prod.fst := by
  induction pairs generalizing mq with
  | nil => exact ⟨mq, rfl, Nat.le_refl _, by simp, by simp⟩
  | cons x rest ih =>
    obtain ⟨v, p⟩ := x
    have hp : p < SIZE_MAX := hps (v, p) (by simp)
    have h1 := push_eq mq v p hp
    have hmax : ((mq.push_grow p).set p (mq.queues[p]?.getD [] ++ [v])).length
        = max mq.queues.length (p + 1) := push_max_priority mq _ v p hp h1
    obtain ⟨mqn, h2, h3, h4, h5⟩ := ih (fun y hy => hps y (by simp [hy]))
      ⟨(mq.push_grow p).set p (mq.queues[p]?.getD [] ++ [v])⟩
    have h3a : max mq.queues.length (p + 1) ≤ mqn.queues.length := by
      rw [← hmax]; exact h3
    refine ⟨mqn, ?_, by omega, ?_, ?_⟩
    · simp only [fixed_priority_multi_queue.push_all, h1]
      exact h2
    · intro y hy
      rcases List.mem_cons.1 hy with rfl | hy
      · show p < mqn.queues.length
        omega
      · exact h4 y hy
    · intro j
      rw [h5 j, push_level mq _ v p hp h1 j]
      by_cases hj : j = p
      · subst hj
        simp [List.filter_cons]
      · have : ¬ p = j := fun h => hj h.symm
        simp [List.filter_cons, hj, this]

theorem eq_map_range_getD {α : Type} (qs : List (List α)) :
    qs = (List.range qs.length).map (fun j => qs[j]?.getD []) := by
  apply List.ext_getElem
  · simp
  · intro i h1 h2
    simp [List.getElem?_eq_getElem h1]

/-- Pushing `pairs` into a default-constructed container succeeds and leaves the
sub-queues whose concatenation is the level-wise listing of `pairs`. -/
theorem push_all_default_flatten {α : Type} (pairs : List (α × Nat))
    (hps : ∀ x ∈ pairs, x.2 < SIZE_MAX) :
    ∃ mqn, (ctor_default : fixed_priority_multi_queue α).push_all pairs = some mqn ∧
      mqn.size = pairs.length ∧
      mqn.queues.flatten = (pairs.insertionSort prio_le).map Prod.fst := by
  obtain ⟨mqn, h1, -, h3, h4⟩ := push_all_levels pairs hps ctor_default
  obtain ⟨mqn1, h5, h6⟩ := push_all_size pairs hps ctor_default
  rw [h1] at h5
  cases h5
  refine ⟨mqn, h1, by simpa [fixed_priority_multi_queue.size, ctor_default] using h6, ?_⟩
  rw [← by_level_eq_insertionSort pairs mqn.queues.length h3]
  conv_lhs => rw [eq_map_range_getD mqn.queues]
  simp only [h4, ctor_default, by_level, List.range_eq_range']
  simp [List.flatMap_def, List.map_flatten, Function.comp_def]

/-! ## The range constructor -/

theorem ctor_range_loop_eq_push_all {α : Type} (pairs : List (α × Nat))
    (mq : fixed_priority_multi_queue α) : ctor_range_loop mq pairs = mq.push_all pairs := by
  induction pairs generalizing mq with
  | nil => rfl
  | cons x rest ih =>
    obtain ⟨v, p⟩ := x
    simp only [ctor_range_loop, push_all]
    cases mq.push v p with
    | none => rfl
    | some mq1 => exact ih mq1

theorem ctor_range_loop_eq_run_ops {α : Type} (pairs : List (α × Nat))
    (mq : fixed_priority_multi_queue α) :
    ctor_range_loop mq pairs = mq.run_ops (pairs.map (fun x => Op.push x.1 x.2)) := by
  induction pairs generalizing mq with
  | nil => rfl
  | cons x rest ih =>
    simp only [ctor_range_loop, List.map_cons, run_ops]
    cases mq.push x.1 x.2 with
    | none => rfl
    | some mq1 => exact ih mq1

/-! ## Reading and popping a fixed number of elements -/

theorem read_n_spec {α : Type} (k : Nat) (mq : fixed_priority_multi_queue α)
    (hk : k ≤ mq.size) :
    ∃ mq1, mq.read_n k = some (mq.queues.flatten.take k, mq1) ∧
      mq1.queues.flatten = mq.queues.flatten.drop k ∧ mq1.size + k = mq.size := by
  induction k generalizing mq with
  | zero => exact ⟨mq, by simp [read_n], by simp, by simp⟩
  | succ k ih =>
    have hpos : 0 < mq.size := by omega
    obtain ⟨x, rest, hx, htop, hpop⟩ := top_pop_of_pos mq hpos
    have hsz := pop_size mq _ hpos hpop
    have hfl := flatten_set_scan mq.queues x rest hx
    obtain ⟨mq1, h1, h2, h3⟩ := ih ⟨mq.queues.set (scan mq.queues) rest⟩ (by omega)
    refine ⟨mq1, ?_, ?_, by omega⟩
    · simp only [read_n, htop, hpop, h1]
      rw [hfl]
      rfl
    · rw [h2, hfl]
      rfl

theorem pop_n_spec {α : Type} (k : Nat) (mq : fixed_priority_multi_queue α)
    (hk : k ≤ mq.size) :
    ∃ mq1, mq.pop_n k = some mq1 ∧ mq1.size + k = mq.size ∧
      mq1.max_priority = mq.max_priority := by
  induction k generalizing mq with
  | zero => exact ⟨mq, rfl, by simp, rfl⟩
  | succ k ih =>
    have hpos : 0 < mq.size := by omega
    obtain ⟨x, rest, -, -, hpop⟩ := top_pop_of_pos mq hpos
    have hsz := pop_size mq _ hpos hpop
    have hmp := pop_max_priority mq _ hpop
    obtain ⟨mq1, h1, h2, h3⟩ := ih ⟨mq.queues.set (scan mq.queues) rest⟩ (by omega)
    refine ⟨mq1, ?_, by omega, by rw [h3, hmp]⟩
    simp only [pop_n, hpop]
    exact h1

theorem size_zero_iff {α : Type} (mq : fixed_priority_multi_queue α) :
    mq.size = 0 ↔ ∀ q ∈ mq.queues, q = [] := by
  rw [size_eq_sum]
  induction mq.queues with
  | nil => simp
  | cons q qs ih => simp [ih]

/-! ## The loop that pops until empty -/

theorem pop_while_spec {α : Type} (fuel : Nat) (mq : fixed_priority_multi_queue α)
    (h : mq.size ≤ fuel) :
    ∃ mq1, mq.pop_while fuel = some (mq.size, mq1) ∧ mq.pop_n mq.size = some mq1 ∧
      mq1.size = 0 := by
  induction fuel generalizing mq with
  | zero =>
    have h0 : mq.size = 0 := by omega
    exact ⟨mq, by simp [pop_while, (empty_iff mq).2 h0, h0], by simp [h0, pop_n], h0⟩
  | succ fuel ih =>
    rcases Nat.eq_zero_or_pos mq.size with h0 | hpos
    · exact ⟨mq, by simp [pop_while, (empty_iff mq).2 h0, h0], by simp [h0, pop_n], h0⟩
    · obtain ⟨x, rest, -, -, hpop⟩ := top_pop_of_pos mq hpos
      have hsz := pop_size mq _ hpos hpop
      obtain ⟨mq1, h1, h2, h3⟩ := ih ⟨mq.queues.set (scan mq.queues) rest⟩ (by omega)
      have hs : mq.size
          = (⟨mq.queues.set (scan mq.queues) rest⟩ : fixed_priority_multi_queue α).size + 1 := by
        omega
      refine ⟨mq1, ?_, ?_, h3⟩
      · simp only [pop_while, (pos_iff_not_empty mq).2 hpos, hpop, h1]
        simp [hs]
      · rw [hs]
        simp only [pop_n, hpop]
        exact h2

/-! ## Calls on objects of a heap -/

theorem run_ops_single {α : Type} (mq : fixed_priority_multi_queue α) (op : Op α)
    (ops : List (Op α)) :
    mq.run_ops (op :: ops)
      = match mq.run_ops [op] with
        | some mq1 => mq1.run_ops ops
        | none => none := by
  cases op with
  | push v p =>
    simp only [run_ops]
    cases mq.push v p <;> rfl
  | pop =>
    simp only [run_ops]
    cases mq.pop <;> rfl

theorem heap_run_spec {α : Type} (ops : List (Op α))
    (h : List (fixed_priority_multi_queue α)) (r : Nat)
    (v m : fixed_priority_multi_queue α) (hr : h[r]? = some v)
    (hrun : v.run_ops ops = some m) :
    ∃ h2, heap_run h r ops = some h2 ∧ h2[r]? = some m ∧
      ∀ j : Nat, j ≠ r → h2[j]? = h[j]? := by
  induction ops generalizing h v with
  | nil =>
    simp only [run_ops, Option.some.injEq] at hrun
    subst hrun
    exact ⟨h, rfl, hr, fun _ _ => rfl⟩
  | cons op ops ih =>
    rw [run_ops_single] at hrun
    cases hv : v.run_ops [op] with
    | none => simp [hv] at hrun
    | some v1 =>
      simp only [hv] at hrun
      have hlt : r < h.length := by
        rcases Nat.lt_or_ge r h.length with h1 | h1
        · exact h1
        · rw [List.getElem?_eq_none h1] at hr
          cases hr
      have hset : (h.set r v1)[r]? = some v1 := by simp [hlt]
      obtain ⟨h2, e1, e2, e3⟩ := ih (h.set r v1) v1 hset hrun
      refine ⟨h2, ?_, e2, ?_⟩
      · simp only [heap_run, heap_call, hr, hv]
        exact e1
      · intro j hj
        rw [e3 j hj]
        simp [List.getElem?_set, Ne.symm hj]

/-- Two names of the same storage are not independent: a `pop()` made through one name
of the storage at address 0 is seen through every other name of that address. -/
theorem shared_storage_observes_pop :
    ∃ h2, heap_run [(⟨[[1]]⟩ : fixed_priority_multi_queue Nat)] 0 [Op.pop] = some h2 ∧
      h2[0]? = some ⟨[[]]⟩ :=
  ⟨[⟨[[]]⟩], by decide⟩

/-! ## The effect of a push on the scan -/

/-- A sub-queue sequence whose sub-queue at `i` is non-empty and whose sub-queues below
`i` are all empty: the scan stops at `i`. -/
theorem scan_eq_of_least {α : Type} (qs : List (List α)) (i : Nat) (x : α) (rest : List α)
    (hbefore : ∀ j : Nat, j < i → qs[j]? = some []) (hat : qs[i]? = some (x :: rest)) :
    scan qs = i := by
  have hi : i < qs.length := by
    rcases Nat.lt_or_ge i qs.length with h | h
    · exact h
    · rw [List.getElem?_eq_none h] at hat
      cases hat
  rcases Nat.lt_trichotomy (scan qs) i with h | h | h
  · obtain ⟨y, ys, hy⟩ := scan_at qs (by omega)
    rw [hbefore _ h] at hy
    cases hy
  · exact h
  · have := scan_before qs i h
    rw [hat] at this
    cases this

theorem top_of_least {α : Type} (mq : fixed_priority_multi_queue α) (i : Nat) (x : α)
    (rest : List α) (hbefore : ∀ j : Nat, j < i → mq.queues[j]? = some [])
    (hat : mq.queues[i]? = some (x :: rest)) : mq.top = some x := by
  have hs := scan_eq_of_least mq.queues i x rest hbefore hat
  simp [top, hs, hat]

theorem push_getElem? {α : Type} (mq mq1 : fixed_priority_multi_queue α) (v : α)
    (p j : Nat) (hp : p < SIZE_MAX) (h : mq.push v p = some mq1)
    (hj : j < max mq.queues.length (p + 1)) :
    mq1.queues[j]?
      = some (if j = p then mq.queues[j]?.getD [] ++ [v] else mq.queues[j]?.getD []) := by
  have hlen : mq1.queues.length = max mq.queues.length (p + 1) :=
    push_max_priority mq mq1 v p hp h
  have hl := push_level mq mq1 v p hp h j
  rw [List.getElem?_eq_getElem (by omega)] at hl ⊢
  simpa using hl

theorem eq_of_levels_eq {α : Type} (l1 l2 : List (List α)) (hlen : l1.length = l2.length)
    (h : ∀ j : Nat, l1[j]?.getD [] = l2[j]?.getD []) : l1 = l2 := by
  apply List.ext_getElem hlen
  intro j h1 h2
  have := h j
  rw [List.getElem?_eq_getElem h1, List.getElem?_eq_getElem h2] at this
  simpa using this

theorem level_of_size_zero {α : Type} (mq : fixed_priority_multi_queue α)
    (h : mq.size = 0) (j : Nat) : mq.queues[j]?.getD [] = [] := by
  cases hq : mq.queues[j]? with
  | none => rfl
  | some q =>
    have := (size_zero_iff mq).1 h q (List.getElem?_mem hq)
    simp [this]

theorem push_top_of_empty {α : Type} (mq mq1 : fixed_priority_multi_queue α) (v : α)
    (p : Nat) (hp : p < SIZE_MAX) (h : mq.push v p = some mq1) (h0 : mq.size = 0) :
    mq1.top = some v := by
  apply top_of_least mq1 p v []
  · intro j hj
    rw [push_getElem? mq mq1 v p j hp h (by omega), if_neg (by omega),
      level_of_size_zero mq h0 j]
  · rw [push_getElem? mq mq1 v p p hp h (by omega), if_pos rfl, level_of_size_zero mq h0 p]
    rfl

theorem push_top_of_least {α : Type} (mq mq1 : fixed_priority_multi_queue α) (v : α)
    (p : Nat) (hp : p < SIZE_MAX) (h : mq.push v p = some mq1) (i : Nat) (x : α)
    (rest : List α) (hbefore : ∀ j : Nat, j < i → mq.queues[j]? = some [])
    (hat : mq.queues[i]? = some (x :: rest)) :
    mq1.top = some (if p < i then v else x) := by
  have hi : i < mq.queues.length := by
    rcases Nat.lt_or_ge i mq.queues.length with h1 | h1
    · exact h1
    · rw [List.getElem?_eq_none h1] at hat
      cases hat
  by_cases hpi : p < i
  · rw [if_pos hpi]
    apply top_of_least mq1 p v []
    · intro j hj
      rw [push_getElem? mq mq1 v p j hp h (by omega), if_neg (by omega),
        hbefore j (by omega)]
      rfl
    · rw [push_getElem? mq mq1 v p p hp h (by omega), if_pos rfl, hbefore p hpi]
      rfl
  · rw [if_neg hpi]
    apply top_of_least mq1 i x (if i = p then rest ++ [v] else rest)
    · intro j hj
      rw [push_getElem? mq mq1 v p j hp h (by omega), if_neg (by omega), hbefore j hj]
      rfl
    · rw [push_getElem? mq mq1 v p i hp h (by omega), hat]
      by_cases hip : i = p
      · simp [hip]
      · simp [hip]

/-! ## Two pushes at different priorities -/

theorem push_push_levels {α : Type} (mq m1 m : fixed_priority_multi_queue α) (a b : α)
    (p q : Nat) (hne : p ≠ q) (hp : p < SIZE_MAX) (hq : q < SIZE_MAX)
    (h1 : mq.push a p = some m1) (h2 : m1.push b q = some m) (j : Nat) :
    m.queues[j]?.getD []
      = if j = p then mq.queues[j]?.getD [] ++ [a]
        else if j = q then mq.queues[j]?.getD [] ++ [b] else mq.queues[j]?.getD [] := by
  rw [push_level m1 m b q hq h2 j, push_level mq m1 a p hp h1 j]
  by_cases hjp : j = p
  · have : ¬ j = q := fun e => hne (hjp.symm.trans e)
    simp [hjp, this]
    intro e
    exact absurd e hne
  · simp [hjp]

/-! ## Claims -/

/-- C1: for every finite sequence of (value, priority) pairs (each priority with
`priority + 1` representable in `size_type`) pushed in order into a default-constructed
container, the pushes succeed, and the loop that reads `top()` and calls `pop()` until
`empty()` terminates within as many iterations as there are pairs and yields the values
of `sorted`, where `sorted` is the insertion sort of the pairs by priority: a permutation
of the pairs, in ascending priority, that for each priority keeps the pairs of that
priority in their push order (the stable sort by priority). -/
theorem C1_drain_yields_stable_sort {α : Type} (pairs : List (α × Nat)) (fuel : Nat)
    (hps : ∀ x ∈ pairs, x.2 < SIZE_MAX) (hfuel : pairs.length ≤ fuel) :
    ∃ mq sorted, (ctor_default : fixed_priority_multi_queue α).push_all pairs = some mq ∧
      mq.drain fuel = some (sorted.map Prod.fst) ∧
      sorted = pairs.insertionSort prio_le ∧
      sorted.Perm pairs ∧
      sorted.Pairwise (fun a b => a.2 ≤ b.2) ∧
      ∀ p : Nat, sorted.filter (fun b => decide (b.2 = p))
        = pairs.filter (fun b => decide (b.2 = p)) := by
  obtain ⟨mq, h1, h2, h3⟩ := push_all_default_flatten pairs hps
  haveI : IsTotal (α × Nat) prio_le := ⟨fun a b => Nat.le_total a.2 b.2⟩
  haveI : IsTrans (α × Nat) prio_le := ⟨fun a b c hab hbc => Nat.le_trans hab hbc⟩
  refine ⟨mq, pairs.insertionSort prio_le, h1, ?_, rfl, List.perm_insertionSort _ _,
    List.sorted_insertionSort prio_le pairs, ?_⟩
  · rw [drain_eq_flatten fuel mq (by omega), h3]
  · intro p
    by_cases hp : p < SIZE_MAX
    · rw [← by_level_eq_insertionSort pairs SIZE_MAX hps]
      exact by_level_filter pairs p SIZE_MAX 0 (Nat.zero_le _) (by omega)
    · have e1 : pairs.filter (fun b => decide (b.2 = p)) = [] := by
        rw [List.filter_eq_nil_iff]
        intro b hb
        have := hps b hb
        simp
        omega
      have e2 : (pairs.insertionSort prio_le).filter (fun b => decide (b.2 = p)) = [] := by
        rw [List.filter_eq_nil_iff]
        intro b hb
        have := hps b ((List.mem_insertionSort prio_le).1 hb)
        simp
        omega
      rw [e1, e2]

theorem C1_drain_yields_stable_sort_witness :
    ((∀ x ∈ [(1, 2), (2, 0), (3, 2), (4, 0), (5, 1)], x.2 < SIZE_MAX) ∧
      [(1, 2), (2, 0), (3, 2), (4, 0), (5, 1)].length ≤ 5) ∧
    ∃ mq sorted, (ctor_default : fixed_priority_multi_queue Nat).push_all
        [(1, 2), (2, 0), (3, 2), (4, 0), (5, 1)] = some mq ∧
      mq.drain 5 = some (sorted.map Prod.fst) ∧
      sorted = [(1, 2), (2, 0), (3, 2), (4, 0), (5, 1)].insertionSort prio_le ∧
      sorted.Perm [(1, 2), (2, 0), (3, 2), (4, 0), (5, 1)] ∧
      sorted.Pairwise (fun a b => a.2 ≤ b.2) ∧
      ∀ p : Nat, sorted.filter (fun b => decide (b.2 = p))
        = [(1, 2), (2, 0), (3, 2), (4, 0), (5, 1)].filter (fun b => decide (b.2 = p)) :=
  ⟨⟨by decide, by decide⟩,
    C1_drain_yields_stable_sort [(1, 2), (2, 0), (3, 2), (4, 0), (5, 1)] 5
      (by decide) (by decide)⟩

/-- C2: on a non-empty container (`size() > 0`) `top()` returns the front element of the
sub-queue at index `i`, where `i` is an allocated index whose sub-queue is non-empty and
every sub-queue at an index below `i` is empty (so `i` is the least non-empty index). -/
theorem C2_top_front_of_least_nonempty {α : Type} (mq : fixed_priority_multi_queue α)
    (h : 0 < mq.size) :
    ∃ i x rest, i < mq.max_priority ∧ (∀ j, j < i → mq.queues[j]? = some []) ∧
      mq.queues[i]? = some (x :: rest) ∧ mq.top = some x := by
  obtain ⟨x, rest, hx, htop, -⟩ := top_pop_of_pos mq h
  exact ⟨scan mq.queues, x, rest, (scan_lt_iff_size mq).2 h, scan_before mq.queues, hx, htop⟩

theorem C2_top_front_of_least_nonempty_witness :
    0 < (⟨[[], [5, 6], [7]]⟩ : fixed_priority_multi_queue Nat).size ∧
    ∃ i x rest, i < (⟨[[], [5, 6], [7]]⟩ : fixed_priority_multi_queue Nat).max_priority ∧
      (∀ j, j < i →
        (⟨[[], [5, 6], [7]]⟩ : fixed_priority_multi_queue Nat).queues[j]? = some []) ∧
      (⟨[[], [5, 6], [7]]⟩ : fixed_priority_multi_queue Nat).queues[i]? = some (x :: rest) ∧
      (⟨[[], [5, 6], [7]]⟩ : fixed_priority_multi_queue Nat).top = some x :=
  ⟨by decide, C2_top_front_of_least_nonempty ⟨[[], [5, 6], [7]]⟩ (by decide)⟩

/-- C3: on a non-empty container `pop()` removes exactly the element `top()` returns:
with `i` the least index of a non-empty sub-queue, whose content is `x :: rest`, `top()`
is `x`, and after `pop()` the sub-queue at `i` is `rest`, every sub-queue at another index
is unchanged and the number of sub-queues is the same. -/
theorem C3_pop_removes_top {α : Type} (mq : fixed_priority_multi_queue α)
    (h : 0 < mq.size) :
    ∃ i x rest mq1, (∀ j, j < i → mq.queues[j]? = some []) ∧
      mq.queues[i]? = some (x :: rest) ∧ mq.top = some x ∧ mq.pop = some mq1 ∧
      mq1.queues[i]? = some rest ∧ (∀ j : Nat, j ≠ i → mq1.queues[j]? = mq.queues[j]?) ∧
      mq1.queues.length = mq.queues.length := by
  obtain ⟨x, rest, hx, htop, hpop⟩ := top_pop_of_pos mq h
  have hlt : scan mq.queues < mq.queues.length := (scan_lt_iff_size mq).2 h
  refine ⟨scan mq.queues, x, rest, _, scan_before mq.queues, hx, htop, hpop, ?_, ?_, ?_⟩
  · simp [hlt]
  · intro j hj
    simp [List.getElem?_set, Ne.symm hj]
  · simp

theorem C3_pop_removes_top_witness :
    0 < (⟨[[], [5, 6], [7]]⟩ : fixed_priority_multi_queue Nat).size ∧
    ∃ i x rest mq1,
      (∀ j, j < i →
        (⟨[[], [5, 6], [7]]⟩ : fixed_priority_multi_queue Nat).queues[j]? = some []) ∧
      (⟨[[], [5, 6], [7]]⟩ : fixed_priority_multi_queue Nat).queues[i]? = some (x :: rest) ∧
      (⟨[[], [5, 6], [7]]⟩ : fixed_priority_multi_queue Nat).top = some x ∧
      (⟨[[], [5, 6], [7]]⟩ : fixed_priority_multi_queue Nat).pop = some mq1 ∧
      mq1.queues[i]? = some rest ∧
      (∀ j : Nat, j ≠ i → mq1.queues[j]? =
        (⟨[[], [5, 6], [7]]⟩ : fixed_priority_multi_queue Nat).queues[j]?) ∧
      mq1.queues.length = (⟨[[], [5, 6], [7]]⟩ : fixed_priority_multi_queue Nat).queues.length :=
  ⟨by decide, C3_pop_removes_top ⟨[[], [5, 6], [7]]⟩ (by decide)⟩

/-- C4: for every container, value and priority whose sub-queue count `priority + 1`
is representable in `size_type` (`priority < SIZE_MAX`), `push(value, priority)` succeeds
and increases `size()` by exactly 1; and after pushing any `n` pairs with such priorities
into a default-constructed container, `size()` equals `n`. -/
theorem C4_push_increases_size_by_one {α : Type} (mq : fixed_priority_multi_queue α)
    (v : α) (p : Nat) (pairs : List (α × Nat)) (hp : p < SIZE_MAX)
    (hps : ∀ x ∈ pairs, x.2 < SIZE_MAX) :
    (∃ mq1, mq.push v p = some mq1 ∧ mq1.size = mq.size + 1) ∧
    (∃ mqn, (ctor_default : fixed_priority_multi_queue α).push_all pairs = some mqn ∧
      mqn.size = pairs.length) := by
  refine ⟨⟨_, push_eq mq v p hp, push_size mq _ v p hp (push_eq mq v p hp)⟩, ?_⟩
  obtain ⟨mqn, h1, h2⟩ := push_all_size pairs hps ctor_default
  refine ⟨mqn, h1, ?_⟩
  rw [h2]
  simp [fixed_priority_multi_queue.size, ctor_default]

theorem C4_push_increases_size_by_one_witness :
    (3 < SIZE_MAX ∧ ∀ x ∈ [(10, 2), (11, 0), (12, 2), (13, 5)], x.2 < SIZE_MAX) ∧
    (∃ mq1, (⟨[[], [5, 6], [7]]⟩ : fixed_priority_multi_queue Nat).push 9 3 = some mq1 ∧
      mq1.size = (⟨[[], [5, 6], [7]]⟩ : fixed_priority_multi_queue Nat).size + 1) ∧
    (∃ mqn, (ctor_default : fixed_priority_multi_queue Nat).push_all
        [(10, 2), (11, 0), (12, 2), (13, 5)] = some mqn ∧
      mqn.size = [(10, 2), (11, 0), (12, 2), (13, 5)].length) :=
  ⟨⟨by decide, by decide⟩,
    C4_push_increases_size_by_one ⟨[[], [5, 6], [7]]⟩ 9 3 [(10, 2), (11, 0), (12, 2), (13, 5)]
      (by decide) (by decide)⟩

/-- C5: for every sequence of `push` and `pop` calls applied to a default-constructed
container, with every `pop()` made on a non-empty container and every pushed priority
having `priority + 1` representable in `size_type`, the sequence runs to a final state
whose `max_priority()` equals one plus the largest priority pushed so far, or 0 if nothing
was pushed; and a further `push` succeeds and does not decrease `max_priority()`. -/
theorem C5_max_priority_one_plus_max_pushed {α : Type} (ops : List (Op α)) (v : α) (p : Nat)
    (hps : ∀ q ∈ pushed_priorities ops, q < SIZE_MAX)
    (hpop : (ctor_default : fixed_priority_multi_queue α).pops_on_nonempty ops = true)
    (hp : p < SIZE_MAX) :
    ∃ mq, (ctor_default : fixed_priority_multi_queue α).run_ops ops = some mq ∧
      mq.max_priority = one_plus_max (pushed_priorities ops) ∧
      ∃ mq1, mq.push v p = some mq1 ∧ mq.max_priority ≤ mq1.max_priority := by
  obtain ⟨mq, hrun⟩ := run_ops_defined ops hps ctor_default hpop
  refine ⟨mq, hrun, ?_, _, push_eq mq v p hp, ?_⟩
  · rw [run_ops_max_priority ops hps _ _ hrun]
    simp [fixed_priority_multi_queue.max_priority, ctor_default]
  · rw [push_max_priority mq _ v p hp (push_eq mq v p hp)]
    omega

theorem C5_max_priority_one_plus_max_pushed_witness :
    ((∀ q ∈ pushed_priorities [Op.push 1 0, Op.push 2 2, Op.pop, Op.pop], q < SIZE_MAX) ∧
      (ctor_default : fixed_priority_multi_queue Nat).pops_on_nonempty
        [Op.push 1 0, Op.push 2 2, Op.pop, Op.pop] = true ∧ 1 < SIZE_MAX) ∧
    ∃ mq, (ctor_default : fixed_priority_multi_queue Nat).run_ops
        [Op.push 1 0, Op.push 2 2, Op.pop, Op.pop] = some mq ∧
      mq.max_priority = one_plus_max (pushed_priorities [Op.push 1 0, Op.push 2 2, Op.pop, Op.pop]) ∧
      ∃ mq1, mq.push 9 1 = some mq1 ∧ mq.max_priority ≤ mq1.max_priority :=
  ⟨⟨by decide, by decide, by decide⟩,
    C5_max_priority_one_plus_max_pushed [Op.push 1 0, Op.push 2 2, Op.pop, Op.pop] 9 1
      (by decide) (by decide) (by decide)⟩

/-- C6: for every container with `N = max_priority()` and every `push(value, priority)`
with `N ≤ priority` (and `priority + 1` representable in `size_type`): the push succeeds,
afterwards `max_priority() == priority + 1`, the sub-queues at indices below `N` are
unchanged, those at indices `N..priority-1` are empty and the one at index `priority`
holds exactly the pushed value.  Pushing `("a", 2)` into a default-constructed container
gives `max_priority() == 3`, `size() == 1` and `top() == "a"`. -/
theorem C6_push_at_or_above_max_priority {α : Type} (mq : fixed_priority_multi_queue α)
    (v : α) (p : Nat) (hge : mq.max_priority ≤ p) (hp : p < SIZE_MAX) :
    (∃ mq1, mq.push v p = some mq1 ∧ mq1.max_priority = p + 1 ∧
      (∀ j : Nat, j < mq.max_priority → mq1.queues[j]? = mq.queues[j]?) ∧
      (∀ j : Nat, mq.max_priority ≤ j → j < p → mq1.queues[j]? = some []) ∧
      mq1.queues[p]? = some [v]) ∧
    (∃ mqa, (ctor_default : fixed_priority_multi_queue String).push "a" 2 = some mqa ∧
      mqa.max_priority = 3 ∧ mqa.size = 1 ∧ mqa.top = some "a") := by
  constructor
  · refine ⟨_, push_of_ge mq v p hge hp, ?_, ?_, ?_, ?_⟩
    · simp [fixed_priority_multi_queue.max_priority] at hge ⊢
      omega
    · intro j hj
      simp only [fixed_priority_multi_queue.max_priority] at hj
      rw [List.append_assoc, List.getElem?_append_left hj]
    · intro j h1 h2
      simp only [fixed_priority_multi_queue.max_priority] at h1 ⊢
      rw [List.append_assoc, List.getElem?_append_right h1,
        List.getElem?_append_left (by simp; omega)]
      exact List.getElem?_replicate_of_lt (by omega)
    · simp only [fixed_priority_multi_queue.max_priority] at hge ⊢
      rw [List.getElem?_append_right (by simp; omega)]
      have : p - (mq.queues ++ List.replicate (p - mq.queues.length) ([] : List α)).length = 0 := by
        simp; omega
      rw [this]
      rfl
  · exact ⟨⟨[[], [], ["a"]]⟩, rfl, rfl, rfl, rfl⟩

theorem C6_push_at_or_above_max_priority_witness :
    ((⟨[[5], []]⟩ : fixed_priority_multi_queue Nat).max_priority ≤ 4 ∧ 4 < SIZE_MAX) ∧
    (∃ mq1, (⟨[[5], []]⟩ : fixed_priority_multi_queue Nat).push 9 4 = some mq1 ∧
      mq1.max_priority = 4 + 1 ∧
      (∀ j : Nat, j < (⟨[[5], []]⟩ : fixed_priority_multi_queue Nat).max_priority →
        mq1.queues[j]? = (⟨[[5], []]⟩ : fixed_priority_multi_queue Nat).queues[j]?) ∧
      (∀ j : Nat, (⟨[[5], []]⟩ : fixed_priority_multi_queue Nat).max_priority ≤ j → j < 4 →
        mq1.queues[j]? = some []) ∧
      mq1.queues[4]? = some [9]) ∧
    (∃ mqa, (ctor_default : fixed_priority_multi_queue String).push "a" 2 = some mqa ∧
      mqa.max_priority = 3 ∧ mqa.size = 1 ∧ mqa.top = some "a") :=
  ⟨⟨by decide, by decide⟩,
    C6_push_at_or_above_max_priority ⟨[[5], []]⟩ 9 4 (by decide) (by decide)⟩

/-- C7 (evaluation at the largest priority): for `priority == SIZE_MAX` the count
`priority + 1` wraps to 0, so `resize(0)` discards every sub-queue (the element 1 held at
level 0 is lost and `max_priority()` would be 0), and `queues[priority]` is then out of
range: the push is undefined and stores nothing. -/
theorem C7_push_largest_priority_wraps :
    (⟨[[1]]⟩ : fixed_priority_multi_queue Nat).push_grow SIZE_MAX = [] ∧
    (⟨[[1]]⟩ : fixed_priority_multi_queue Nat).push 7 SIZE_MAX = none := by
  decide

/-- C8: in a run of consecutive `pop()` calls on a container, every call made while
elements remain (the call number `k + 1`, for `k < size()`) is made on a non-empty
container, succeeds and decreases `size()` by exactly 1; the size before that call is the
initial size minus `k`, so the run continues until `size() == 0`.  With `k = 0` this is
the single `pop()` on a non-empty container. -/
theorem C8_pop_decreases_size_by_one {α : Type} (mq : fixed_priority_multi_queue α)
    (k : Nat) (hk : k < mq.size) :
    ∃ mqk mq1, mq.pop_n k = some mqk ∧ mqk.size = mq.size - k ∧ 0 < mqk.size ∧
      mqk.pop = some mq1 ∧ mq1.size + 1 = mqk.size := by
  induction k generalizing mq with
  | zero =>
    obtain ⟨x, rest, -, -, hpop⟩ := top_pop_of_pos mq hk
    exact ⟨mq, _, rfl, by simp, hk, hpop, pop_size mq _ hk hpop⟩
  | succ k ih =>
    have hpos : 0 < mq.size := by omega
    obtain ⟨x, rest, -, -, hpop⟩ := top_pop_of_pos mq hpos
    have hsz := pop_size mq _ hpos hpop
    obtain ⟨mqk, mq1, h1, h2, h3, h4, h5⟩ := ih ⟨mq.queues.set (scan mq.queues) rest⟩ (by omega)
    refine ⟨mqk, mq1, ?_, by omega, h3, h4, h5⟩
    simp [fixed_priority_multi_queue.pop_n, hpop, h1]

theorem C8_pop_decreases_size_by_one_witness :
    2 < (⟨[[], [5, 6], [7]]⟩ : fixed_priority_multi_queue Nat).size ∧
    ∃ mqk mq1, (⟨[[], [5, 6], [7]]⟩ : fixed_priority_multi_queue Nat).pop_n 2 = some mqk ∧
      mqk.size = (⟨[[], [5, 6], [7]]⟩ : fixed_priority_multi_queue Nat).size - 2 ∧
      0 < mqk.size ∧ mqk.pop = some mq1 ∧ mq1.size + 1 = mqk.size :=
  ⟨by decide, C8_pop_decreases_size_by_one ⟨[[], [5, 6], [7]]⟩ 2 (by decide)⟩

/-- C9: on a non-empty container `pop()` succeeds and leaves `max_priority()` unchanged
(whichever element is popped, so also when it was the only element of the highest-indexed
sub-queue or the last element of the container: the emptied sub-queue stays allocated). -/
theorem C9_pop_keeps_max_priority {α : Type} (mq : fixed_priority_multi_queue α)
    (h : 0 < mq.size) :
    ∃ mq1, mq.pop = some mq1 ∧ mq1.max_priority = mq.max_priority := by
  obtain ⟨x, rest, -, -, hpop⟩ := top_pop_of_pos mq h
  exact ⟨_, hpop, by simp [fixed_priority_multi_queue.max_priority]⟩

theorem C9_pop_keeps_max_priority_witness :
    0 < (⟨[[], [], [7]]⟩ : fixed_priority_multi_queue Nat).size ∧
    ∃ mq1, (⟨[[], [], [7]]⟩ : fixed_priority_multi_queue Nat).pop = some mq1 ∧
      mq1.max_priority = (⟨[[], [], [7]]⟩ : fixed_priority_multi_queue Nat).max_priority :=
  ⟨by decide, C9_pop_keeps_max_priority ⟨[[], [], [7]]⟩ (by decide)⟩

/-- C10: the scan of `top()` and `pop()` stops before the end of the sub-queue sequence
exactly when `empty()` is false, and then it stops at a non-empty sub-queue; it reaches the
end exactly when `empty()` is true, and `top()` and `pop()` are undefined (yield nothing)
exactly on empty containers, whatever the number of allocated sub-queues. -/
theorem C10_scan_in_range_iff_not_empty {α : Type} (mq : fixed_priority_multi_queue α) :
    (scan mq.queues < mq.queues.length ↔ mq.empty = false) ∧
    (mq.empty = false ↔ 0 < mq.size) ∧
    (mq.empty = false ↔ ∃ x rest, mq.queues[scan mq.queues]? = some (x :: rest)) ∧
    (scan mq.queues = mq.queues.length ↔ mq.empty = true) ∧
    (mq.top = none ↔ mq.empty = true) ∧
    (mq.pop = none ↔ mq.empty = true) := by
  have hle := scan_le mq.queues
  have hlt := scan_lt_iff_size mq
  have hne := pos_iff_not_empty mq
  have hem := empty_iff mq
  rcases Nat.eq_zero_or_pos mq.size with h0 | hpos
  · obtain ⟨h1, h2, h3⟩ := top_pop_of_empty mq h0
    have he : mq.empty = true := hem.2 h0
    simp [he, h1, h2, h3, h0]
  · obtain ⟨x, rest, hx, htop, hpop⟩ := top_pop_of_pos mq hpos
    have he : mq.empty = false := hne.2 hpos
    have hs := hlt.2 hpos
    simp [he, hx, htop, hpop, hpos, hs]
    omega

/-- C11: for every finite sequence of (value, priority) pairs, the outcome of the range
constructor is the outcome of default-constructing a container and calling
`push(value, priority)` for each pair in traversal order (as a sequence of individual
calls, and as the caller loop): the same sub-queue sequence with the same contents in the
same order; and when every priority has `priority + 1` representable in `size_type` the
construction is defined. -/
theorem C11_ctor_range_is_push_each {α : Type} (pairs : List (α × Nat)) :
    ctor_range pairs
      = (ctor_default : fixed_priority_multi_queue α).run_ops
          (pairs.map (fun x => Op.push x.1 x.2)) ∧
    ctor_range pairs = (ctor_default : fixed_priority_multi_queue α).push_all pairs ∧
    ((∀ x ∈ pairs, x.2 < SIZE_MAX) → ∃ mq, ctor_range pairs = some mq) := by
  refine ⟨ctor_range_loop_eq_run_ops pairs _, ctor_range_loop_eq_push_all pairs _, ?_⟩
  intro hps
  obtain ⟨mq, h, -⟩ := push_all_size pairs hps ctor_default
  exact ⟨mq, by rw [← h]; exact ctor_range_loop_eq_push_all pairs _⟩

theorem C11_ctor_range_is_push_each_witness :
    ctor_range [(1, 2), (2, 0), (3, 2)] = some (⟨[[2], [], [1, 3]]⟩ : fixed_priority_multi_queue Nat) ∧
    (ctor_default : fixed_priority_multi_queue Nat).run_ops
      ([(1, 2), (2, 0), (3, 2)].map (fun x => Op.push x.1 x.2)) = some ⟨[[2], [], [1, 3]]⟩ ∧
    ∃ mq : fixed_priority_multi_queue Nat, ctor_range [(1, 2), (2, 0), (3, 2)] = some mq :=
  ⟨by decide, by decide,
    (C11_ctor_range_is_push_each [(1, 2), (2, 0), (3, 2)]).2.2 (by decide)⟩

/-- C12: for every list of (value, priority) pairs whose priorities are non-decreasing in
list order (each with `priority + 1` representable in `size_type`), the range-constructed
container exists and has `size()` equal to the list length, and reading `top()` then
calling `pop()` once per list element returns the values in exactly the list order, after
which `empty()` is true. -/
theorem C12_sorted_range_reads_in_list_order {α : Type} (pairs : List (α × Nat))
    (hps : ∀ x ∈ pairs, x.2 < SIZE_MAX)
    (hsorted : pairs.Chain' (fun x y => x.2 ≤ y.2)) :
    ∃ mq mq1, ctor_range pairs = some mq ∧ mq.size = pairs.length ∧
      mq.read_n pairs.length = some (pairs.map Prod.fst, mq1) ∧ mq1.empty = true := by
  obtain ⟨mq, h1, h2, h3⟩ := push_all_default_flatten pairs hps
  haveI : IsTrans (α × Nat) prio_le := ⟨fun a b c hab hbc => Nat.le_trans hab hbc⟩
  have hs : pairs.Sorted prio_le := List.chain'_iff_pairwise.1 hsorted
  rw [hs.insertionSort_eq] at h3
  obtain ⟨mq1, h4, -, h6⟩ := read_n_spec pairs.length mq (by omega)
  have hlen : mq.queues.flatten.length = pairs.length := by rw [h3]; simp
  rw [List.take_of_length_le (by omega), h3] at h4
  refine ⟨mq, mq1, ?_, h2, h4, (empty_iff mq1).2 (by omega)⟩
  rw [← h1]
  exact ctor_range_loop_eq_push_all pairs _

theorem C12_sorted_range_reads_in_list_order_witness :
    ((∀ x ∈ [(5, 0), (6, 0), (7, 2), (8, 3)], x.2 < SIZE_MAX) ∧
      [(5, 0), (6, 0), (7, 2), (8, 3)].Chain' (fun x y => x.2 ≤ y.2)) ∧
    ∃ mq mq1, ctor_range [(5, 0), (6, 0), (7, 2), (8, 3)] = some mq ∧
      mq.size = [(5, 0), (6, 0), (7, 2), (8, 3)].length ∧
      mq.read_n [(5, 0), (6, 0), (7, 2), (8, 3)].length
        = some ([(5, 0), (6, 0), (7, 2), (8, 3)].map Prod.fst, mq1) ∧
      mq1.empty = true :=
  ⟨⟨by decide, by simp⟩,
    C12_sorted_range_reads_in_list_order [(5, 0), (6, 0), (7, 2), (8, 3)]
      (by decide) (by simp)⟩

/-- C13: for every container `empty()` is true iff `size() == 0`, which holds iff every
allocated sub-queue is empty; a default-constructed container has `size() == 0`,
`empty()` true and `max_priority() == 0`; and popping all `size()` elements of a container
leaves it `empty()` with `max_priority()` unchanged, which is greater than 0 for instance
after popping the single element of a container that holds it at level 2. -/
theorem C13_empty_iff_size_zero {α : Type} (mq : fixed_priority_multi_queue α) :
    (mq.empty = true ↔ mq.size = 0) ∧
    (mq.size = 0 ↔ ∀ q ∈ mq.queues, q = []) ∧
    ((ctor_default : fixed_priority_multi_queue α).size = 0 ∧
      (ctor_default : fixed_priority_multi_queue α).empty = true ∧
      (ctor_default : fixed_priority_multi_queue α).max_priority = 0) ∧
    (∃ mq1, mq.pop_n mq.size = some mq1 ∧ mq1.empty = true ∧
      mq1.max_priority = mq.max_priority) ∧
    (∃ mq2, (⟨[[], [], [7]]⟩ : fixed_priority_multi_queue Nat).pop = some mq2 ∧
      mq2.empty = true ∧ mq2.max_priority = 3) := by
  refine ⟨empty_iff mq, size_zero_iff mq, ⟨rfl, rfl, rfl⟩, ?_, ⟨⟨[[], [], []]⟩, by decide⟩⟩
  obtain ⟨mq1, h1, h2, h3⟩ := pop_n_spec mq.size mq (Nat.le_refl _)
  exact ⟨mq1, h1, (empty_iff mq1).2 (by omega), h3⟩

/-- C14: for every pair of containers `dst` and `src`, after the copy assignment
`dst = src` the sub-queue sequence of `dst` equals that of `src`, so `size()`,
`max_priority()`, `empty()` and `top()` of `dst` equal those of `src`, whatever `dst` held
before, and `src` is unchanged; as in the tests, a 4-level container assigned from a
3-level one ends with 3 levels and a 1-level container assigned from a 3-level one ends
with 3 levels. -/
theorem C14_copy_assignment_equals_source {α : Type}
    (dst src : fixed_priority_multi_queue α) :
    (dst.assign_copy src).1.queues = src.queues ∧
    (dst.assign_copy src).1.size = src.size ∧
    (dst.assign_copy src).1.max_priority = src.max_priority ∧
    (dst.assign_copy src).1.empty = src.empty ∧
    (dst.assign_copy src).1.top = src.top ∧
    (dst.assign_copy src).2 = src ∧
    ((⟨[[1, 2], [3], [], [4]]⟩ : fixed_priority_multi_queue Nat).assign_copy
        ⟨[[], [8], [9]]⟩).1.max_priority = 3 ∧
    ((⟨[[1]]⟩ : fixed_priority_multi_queue Nat).assign_copy ⟨[[], [8], [9]]⟩).1.size = 2 :=
  ⟨rfl, rfl, rfl, rfl, rfl, rfl, by decide, by decide⟩

/-- C15: for every container `a`, after move construction of `b` from `a`, or move
assignment `b = move(a)` for any prior content `b0` of `b`, `b` holds exactly the previous
sub-queue sequence of `a`, and `a` is left with zero sub-queues: `a.empty()` is true,
`a.size() == 0` and `a.max_priority() == 0`. -/
theorem C15_move_leaves_source_empty {α : Type} (a b0 : fixed_priority_multi_queue α) :
    ((ctor_move a).1 = a ∧ (ctor_move a).2.queues = [] ∧ (ctor_move a).2.empty = true ∧
      (ctor_move a).2.size = 0 ∧ (ctor_move a).2.max_priority = 0) ∧
    ((b0.assign_move a).1 = a ∧ (b0.assign_move a).2.queues = [] ∧
      (b0.assign_move a).2.empty = true ∧ (b0.assign_move a).2.size = 0 ∧
      (b0.assign_move a).2.max_priority = 0) :=
  ⟨⟨rfl, rfl, rfl, rfl, rfl⟩, ⟨rfl, rfl, rfl, rfl, rfl⟩⟩

/-- C16: for every pair of containers `a` and `b`, after `a.swap(b)` the state of `a` is
the previous state of `b` and the state of `b` is the previous state of `a` (sub-queue
contents, hence `size()` and `max_priority()`), and the free function `swap(a, b)` gives
the same result as `a.swap(b)`. -/
theorem C16_swap_exchanges_states {α : Type} (a b : fixed_priority_multi_queue α) :
    (a.swap b).1 = b ∧ (a.swap b).2 = a ∧
    (a.swap b).1.size = b.size ∧ (a.swap b).2.size = a.size ∧
    (a.swap b).1.max_priority = b.max_priority ∧
    (a.swap b).2.max_priority = a.max_priority ∧
    MultiQueue.swap a b = a.swap b :=
  ⟨rfl, rfl, rfl, rfl, rfl, rfl, rfl⟩

/-- C17: in a heap where the object `a` lives at address `a` with content `va`, let `b`
be made a copy of `a`, by copy construction (then `b` is a new object, at an address other
than `a`) or by copy assignment to an object `b0` distinct from `a`, whatever it held.
Then `b` holds `va`, and for every sequence of `push` and `pop` calls defined on a
container with content `va`: made on `b`, the sequence runs, leaves `b` with its result
`m` and leaves `a` with content `va`, so `a.size()` and `a.top()` are unchanged; made on
`a`, it leaves `a` with `m` and `b` with content `va`, so `b.size()` and `b.top()` are
unchanged.  With 5 elements at priority 0 in `a`, copying `a` into `b` and popping until
`a` is empty leaves `a.empty()` true and `b.size() == 5`. -/
theorem C17_copy_independence {α : Type} (h : List (fixed_priority_multi_queue α))
    (a b0 : Nat) (va vb0 m : fixed_priority_multi_queue α) (ops : List (Op α))
    (ha : h[a]? = some va) (hb0 : h[b0]? = some vb0) (hne : b0 ≠ a)
    (hrun : va.run_ops ops = some m) :
    (∃ h1 b, heap_ctor_copy h a = some (h1, b) ∧ b ≠ a ∧
      h1[a]? = some va ∧ h1[b]? = some va ∧
      (∃ h2 a2, heap_run h1 b ops = some h2 ∧ h2[b]? = some m ∧ h2[a]? = some a2 ∧
        a2 = va ∧ a2.size = va.size ∧ a2.top = va.top) ∧
      (∃ h2 b2, heap_run h1 a ops = some h2 ∧ h2[a]? = some m ∧ h2[b]? = some b2 ∧
        b2 = va ∧ b2.size = va.size ∧ b2.top = va.top)) ∧
    (∃ h1, heap_assign_copy h b0 a = some h1 ∧
      h1[a]? = some va ∧ h1[b0]? = some va ∧
      (∃ h2 a2, heap_run h1 b0 ops = some h2 ∧ h2[b0]? = some m ∧ h2[a]? = some a2 ∧
        a2 = va ∧ a2.size = va.size ∧ a2.top = va.top) ∧
      (∃ h2 b2, heap_run h1 a ops = some h2 ∧ h2[a]? = some m ∧ h2[b0]? = some b2 ∧
        b2 = va ∧ b2.size = va.size ∧ b2.top = va.top)) ∧
    (∃ v5 h1 b n ve h2 ea eb,
      (ctor_default : fixed_priority_multi_queue Nat).push_all
        [(1, 0), (2, 0), (3, 0), (4, 0), (5, 0)] = some v5 ∧
      heap_ctor_copy [v5] 0 = some (h1, b) ∧
      v5.pop_while 5 = some (n, ve) ∧
      heap_run h1 0 (List.replicate n Op.pop) = some h2 ∧
      h2[0]? = some ea ∧ ea.empty = true ∧ h2[b]? = some eb ∧ eb.size = 5) := by
  have hlt : a < h.length := by
    rcases Nat.lt_or_ge a h.length with h1 | h1
    · exact h1
    · rw [List.getElem?_eq_none h1] at ha
      cases ha
  have hlt0 : b0 < h.length := by
    rcases Nat.lt_or_ge b0 h.length with h1 | h1
    · exact h1
    · rw [List.getElem?_eq_none h1] at hb0
      cases hb0
  refine ⟨?_, ?_, ?_⟩
  · have e1 : (h ++ [ctor_copy va])[a]? = some va := by
      rw [List.getElem?_append_left hlt]
      exact ha
    have e2 : (h ++ [ctor_copy va])[h.length]? = some va := by
      rw [List.getElem?_append_right (Nat.le_refl _)]
      simp [ctor_copy]
    refine ⟨h ++ [ctor_copy va], h.length, by simp [heap_ctor_copy, ha], by omega, e1, e2,
      ?_, ?_⟩
    · obtain ⟨h2, r1, r2, r3⟩ := heap_run_spec ops _ h.length va m e2 hrun
      exact ⟨h2, va, r1, r2, by rw [r3 a (by omega)]; exact e1, rfl, rfl, rfl⟩
    · obtain ⟨h2, r1, r2, r3⟩ := heap_run_spec ops _ a va m e1 hrun
      exact ⟨h2, va, r1, r2, by rw [r3 h.length (by omega)]; exact e2, rfl, rfl, rfl⟩
  · have e1 : (h.set b0 (vb0.assign_copy va).1)[a]? = some va := by
      rw [List.getElem?_set_ne hne]
      exact ha
    have e2 : (h.set b0 (vb0.assign_copy va).1)[b0]? = some va := by
      simp [hlt0, assign_copy]
    refine ⟨h.set b0 (vb0.assign_copy va).1, by simp [heap_assign_copy, ha, hb0], e1, e2,
      ?_, ?_⟩
    · obtain ⟨h2, r1, r2, r3⟩ := heap_run_spec ops _ b0 va m e2 hrun
      exact ⟨h2, va, r1, r2, by rw [r3 a (Ne.symm hne)]; exact e1, rfl, rfl, rfl⟩
    · obtain ⟨h2, r1, r2, r3⟩ := heap_run_spec ops _ a va m e1 hrun
      exact ⟨h2, va, r1, r2, by rw [r3 b0 hne]; exact e2, rfl, rfl, rfl⟩
  · exact ⟨⟨[[1, 2, 3, 4, 5]]⟩, [⟨[[1, 2, 3, 4, 5]]⟩, ⟨[[1, 2, 3, 4, 5]]⟩], 1, 5, ⟨[[]]⟩,
      [⟨[[]]⟩, ⟨[[1, 2, 3, 4, 5]]⟩], ⟨[[]]⟩, ⟨[[1, 2, 3, 4, 5]]⟩, by decide⟩

theorem C17_copy_independence_witness :
    (([⟨[[1], [2]]⟩, ⟨[[9, 9, 9]]⟩] : List (fixed_priority_multi_queue Nat))[0]?
        = some ⟨[[1], [2]]⟩ ∧
      ([⟨[[1], [2]]⟩, ⟨[[9, 9, 9]]⟩] : List (fixed_priority_multi_queue Nat))[1]?
        = some ⟨[[9, 9, 9]]⟩ ∧
      1 ≠ 0 ∧
      (⟨[[1], [2]]⟩ : fixed_priority_multi_queue Nat).run_ops [Op.pop, Op.push 7 3, Op.pop]
        = some ⟨[[], [], [], [7]]⟩) ∧
    (∃ h1 b, heap_ctor_copy
        ([⟨[[1], [2]]⟩, ⟨[[9, 9, 9]]⟩] : List (fixed_priority_multi_queue Nat)) 0
          = some (h1, b) ∧ b ≠ 0 ∧
      h1[0]? = some ⟨[[1], [2]]⟩ ∧ h1[b]? = some ⟨[[1], [2]]⟩ ∧
      (∃ h2 a2, heap_run h1 b [Op.pop, Op.push 7 3, Op.pop] = some h2 ∧
        h2[b]? = some ⟨[[], [], [], [7]]⟩ ∧ h2[0]? = some a2 ∧ a2 = ⟨[[1], [2]]⟩ ∧
        a2.size = (⟨[[1], [2]]⟩ : fixed_priority_multi_queue Nat).size ∧
        a2.top = (⟨[[1], [2]]⟩ : fixed_priority_multi_queue Nat).top) ∧
      (∃ h2 b2, heap_run h1 0 [Op.pop, Op.push 7 3, Op.pop] = some h2 ∧
        h2[0]? = some ⟨[[], [], [], [7]]⟩ ∧ h2[b]? = some b2 ∧ b2 = ⟨[[1], [2]]⟩ ∧
        b2.size = (⟨[[1], [2]]⟩ : fixed_priority_multi_queue Nat).size ∧
        b2.top = (⟨[[1], [2]]⟩ : fixed_priority_multi_queue Nat).top)) ∧
    (∃ h1, heap_assign_copy
        ([⟨[[1], [2]]⟩, ⟨[[9, 9, 9]]⟩] : List (fixed_priority_multi_queue Nat)) 1 0
          = some h1 ∧
      h1[0]? = some ⟨[[1], [2]]⟩ ∧ h1[1]? = some ⟨[[1], [2]]⟩ ∧
      (∃ h2 a2, heap_run h1 1 [Op.pop, Op.push 7 3, Op.pop] = some h2 ∧
        h2[1]? = some ⟨[[], [], [], [7]]⟩ ∧ h2[0]? = some a2 ∧ a2 = ⟨[[1], [2]]⟩ ∧
        a2.size = (⟨[[1], [2]]⟩ : fixed_priority_multi_queue Nat).size ∧
        a2.top = (⟨[[1], [2]]⟩ : fixed_priority_multi_queue Nat).top) ∧
      (∃ h2 b2, heap_run h1 0 [Op.pop, Op.push 7 3, Op.pop] = some h2 ∧
        h2[0]? = some ⟨[[], [], [], [7]]⟩ ∧ h2[1]? = some b2 ∧ b2 = ⟨[[1], [2]]⟩ ∧
        b2.size = (⟨[[1], [2]]⟩ : fixed_priority_multi_queue Nat).size ∧
        b2.top = (⟨[[1], [2]]⟩ : fixed_priority_multi_queue Nat).top)) ∧
    (∃ v5 h1 b n ve h2 ea eb,
      (ctor_default : fixed_priority_multi_queue Nat).push_all
        [(1, 0), (2, 0), (3, 0), (4, 0), (5, 0)] = some v5 ∧
      heap_ctor_copy [v5] 0 = some (h1, b) ∧
      v5.pop_while 5 = some (n, ve) ∧
      heap_run h1 0 (List.replicate n Op.pop) = some h2 ∧
      h2[0]? = some ea ∧ ea.empty = true ∧ h2[b]? = some eb ∧ eb.size = 5) :=
  ⟨⟨by decide, by decide, by decide, by decide⟩,
    C17_copy_independence [⟨[[1], [2]]⟩, ⟨[[9, 9, 9]]⟩] 0 1 ⟨[[1], [2]]⟩ ⟨[[9, 9, 9]]⟩
      ⟨[[], [], [], [7]]⟩ [Op.pop, Op.push 7 3, Op.pop]
      (by decide) (by decide) (by decide) (by decide)⟩

/-- C18: for every container the loop `while (!empty()) pop();` terminates (within any
bound of at least `size()` iterations) after exactly `size()` calls to `pop()`, `size()`
taken before the loop; the container before each of these calls is non-empty, so every
call meets its precondition; the container left is the one reached by `size()` consecutive
pops, with `size() == 0` and `empty()` true. -/
theorem C18_pop_until_empty_terminates {α : Type} (mq : fixed_priority_multi_queue α)
    (fuel : Nat) (h : mq.size ≤ fuel) :
    ∃ mq1, mq.pop_while fuel = some (mq.size, mq1) ∧ mq.pop_n mq.size = some mq1 ∧
      (∀ k, k < mq.size → ∃ mqk, mq.pop_n k = some mqk ∧ mqk.empty = false) ∧
      mq1.size = 0 ∧ mq1.empty = true := by
  obtain ⟨mq1, h1, h2, h3⟩ := pop_while_spec fuel mq h
  refine ⟨mq1, h1, h2, ?_, h3, (empty_iff mq1).2 h3⟩
  intro k hk
  obtain ⟨mqk, h4, h5, -⟩ := pop_n_spec k mq (by omega)
  exact ⟨mqk, h4, (pos_iff_not_empty mqk).2 (by omega)⟩

theorem C18_pop_until_empty_terminates_witness :
    (⟨[[], [5, 6], [7]]⟩ : fixed_priority_multi_queue Nat).size ≤ 4 ∧
    ∃ mq1, (⟨[[], [5, 6], [7]]⟩ : fixed_priority_multi_queue Nat).pop_while 4
        = some ((⟨[[], [5, 6], [7]]⟩ : fixed_priority_multi_queue Nat).size, mq1) ∧
      (⟨[[], [5, 6], [7]]⟩ : fixed_priority_multi_queue Nat).pop_n
        (⟨[[], [5, 6], [7]]⟩ : fixed_priority_multi_queue Nat).size = some mq1 ∧
      (∀ k, k < (⟨[[], [5, 6], [7]]⟩ : fixed_priority_multi_queue Nat).size →
        ∃ mqk, (⟨[[], [5, 6], [7]]⟩ : fixed_priority_multi_queue Nat).pop_n k = some mqk ∧
          mqk.empty = false) ∧
      mq1.size = 0 ∧ mq1.empty = true :=
  ⟨by decide, C18_pop_until_empty_terminates ⟨[[], [5, 6], [7]]⟩ 4 (by decide)⟩

/-- C19: for every container and every `push(value, priority)` with
`priority < max_priority()`: the push succeeds, `max_priority()` is unchanged, the value is
appended at the back of the sub-queue at index `priority` (behind all elements already
there), and every other sub-queue is unchanged. -/
theorem C19_push_below_max_priority {α : Type} (mq : fixed_priority_multi_queue α)
    (v : α) (p : Nat) (h : p < mq.max_priority) :
    ∃ q mq1, mq.queues[p]? = some q ∧ mq.push v p = some mq1 ∧
      mq1.max_priority = mq.max_priority ∧ mq1.queues[p]? = some (q ++ [v]) ∧
      ∀ j : Nat, j ≠ p → mq1.queues[j]? = mq.queues[j]? := by
  have hlt : p < mq.queues.length := h
  have hg : mq.push_grow p = mq.queues := by
    unfold push_grow
    rw [if_neg (by omega)]
  have hq : mq.queues[p]? = some (mq.queues[p]) := List.getElem?_eq_getElem hlt
  refine ⟨mq.queues[p], ⟨mq.queues.set p (mq.queues[p] ++ [v])⟩, hq, ?_, ?_, ?_, ?_⟩
  · simp only [push, hg, hq]
  · simp [max_priority]
  · simp [hlt]
  · intro j hj
    simp [List.getElem?_set, Ne.symm hj]

theorem C19_push_below_max_priority_witness :
    1 < (⟨[[], [5, 6], [7]]⟩ : fixed_priority_multi_queue Nat).max_priority ∧
    ∃ q mq1, (⟨[[], [5, 6], [7]]⟩ : fixed_priority_multi_queue Nat).queues[1]? = some q ∧
      (⟨[[], [5, 6], [7]]⟩ : fixed_priority_multi_queue Nat).push 9 1 = some mq1 ∧
      mq1.max_priority = (⟨[[], [5, 6], [7]]⟩ : fixed_priority_multi_queue Nat).max_priority ∧
      mq1.queues[1]? = some (q ++ [9]) ∧
      ∀ j : Nat, j ≠ 1 → mq1.queues[j]?
        = (⟨[[], [5, 6], [7]]⟩ : fixed_priority_multi_queue Nat).queues[j]? :=
  ⟨by decide, C19_push_below_max_priority ⟨[[], [5, 6], [7]]⟩ 9 1 (by decide)⟩

/-- C20: the const and non-const overloads of `top()` select the same element: they
agree on every container, on a non-empty container both return the front element `x` of
the least non-empty sub-queue, and the const overload on a copy of the container returns
that same `x`. -/
theorem C20_top_const_agrees {α : Type} (mq : fixed_priority_multi_queue α)
    (h : 0 < mq.size) :
    mq.top_const = mq.top ∧
    ∃ x, mq.top = some x ∧ mq.top_const = some x ∧ (ctor_copy mq).top_const = some x := by
  obtain ⟨x, rest, -, htop, -⟩ := top_pop_of_pos mq h
  exact ⟨rfl, x, htop, htop, htop⟩

theorem C20_top_const_agrees_witness :
    0 < (⟨[[], [5, 6], [7]]⟩ : fixed_priority_multi_queue Nat).size ∧
    (⟨[[], [5, 6], [7]]⟩ : fixed_priority_multi_queue Nat).top_const
      = (⟨[[], [5, 6], [7]]⟩ : fixed_priority_multi_queue Nat).top ∧
    ∃ x, (⟨[[], [5, 6], [7]]⟩ : fixed_priority_multi_queue Nat).top = some x ∧
      (⟨[[], [5, 6], [7]]⟩ : fixed_priority_multi_queue Nat).top_const = some x ∧
      (ctor_copy (⟨[[], [5, 6], [7]]⟩ : fixed_priority_multi_queue Nat)).top_const = some x :=
  ⟨by decide, C20_top_const_agrees ⟨[[], [5, 6], [7]]⟩ (by decide)⟩

/-- C21: effect of `push(value, priority)` on `top()`, for `priority + 1` representable
in `size_type`.  The push succeeds.  On an empty container (no sub-queues or only emptied
ones) `top()` afterwards is the pushed value, for any priority.  A non-empty container has
a least non-empty sub-queue index `i`, and with `x` the front of that sub-queue, `top()`
was `x` and afterwards it is the pushed value when `priority < i` and still `x` when
`priority >= i`. -/
theorem C21_push_effect_on_top {α : Type} (mq : fixed_priority_multi_queue α) (v : α)
    (p : Nat) (hp : p < SIZE_MAX) :
    ∃ mq1, mq.push v p = some mq1 ∧
      (mq.empty = true → mq1.top = some v) ∧
      (mq.empty = false → ∃ (i : Nat) (x : α) (rest : List α),
        (∀ j : Nat, j < i → mq.queues[j]? = some []) ∧ mq.queues[i]? = some (x :: rest)) ∧
      (∀ (i : Nat) (x : α) (rest : List α),
        (∀ j : Nat, j < i → mq.queues[j]? = some []) → mq.queues[i]? = some (x :: rest) →
        mq.top = some x ∧ mq1.top = some (if p < i then v else x)) := by
  refine ⟨_, push_eq mq v p hp, ?_, ?_, ?_⟩
  · intro he
    exact push_top_of_empty mq _ v p hp (push_eq mq v p hp) ((empty_iff mq).1 he)
  · intro hne
    have hpos := (pos_iff_not_empty mq).1 hne
    obtain ⟨x, rest, hx⟩ := scan_at mq.queues ((scan_lt_iff_size mq).2 hpos)
    exact ⟨scan mq.queues, x, rest, scan_before mq.queues, hx⟩
  · intro i x rest hbefore hat
    exact ⟨top_of_least mq i x rest hbefore hat,
      push_top_of_least mq _ v p hp (push_eq mq v p hp) i x rest hbefore hat⟩

theorem C21_push_effect_on_top_witness :
    1 < SIZE_MAX ∧
    ∃ mq1, (⟨[[], [], [5, 6], [7]]⟩ : fixed_priority_multi_queue Nat).push 9 1 = some mq1 ∧
      ((⟨[[], [], [5, 6], [7]]⟩ : fixed_priority_multi_queue Nat).empty = true →
        mq1.top = some 9) ∧
      ((⟨[[], [], [5, 6], [7]]⟩ : fixed_priority_multi_queue Nat).empty = false →
        ∃ (i : Nat) (x : Nat) (rest : List Nat),
          (∀ j : Nat, j < i →
            (⟨[[], [], [5, 6], [7]]⟩ : fixed_priority_multi_queue Nat).queues[j]? = some []) ∧
          (⟨[[], [], [5, 6], [7]]⟩ : fixed_priority_multi_queue Nat).queues[i]?
            = some (x :: rest)) ∧
      (∀ (i : Nat) (x : Nat) (rest : List Nat),
        (∀ j : Nat, j < i →
          (⟨[[], [], [5, 6], [7]]⟩ : fixed_priority_multi_queue Nat).queues[j]? = some []) →
        (⟨[[], [], [5, 6], [7]]⟩ : fixed_priority_multi_queue Nat).queues[i]?
          = some (x :: rest) →
        (⟨[[], [], [5, 6], [7]]⟩ : fixed_priority_multi_queue Nat).top = some x ∧
          mq1.top = some (if 1 < i then 9 else x)) :=
  ⟨by decide, C21_push_effect_on_top ⟨[[], [], [5, 6], [7]]⟩ 9 1 (by decide)⟩

/-- C22: pushes at different priority levels commute: for every container, values `a`
and `b` and priorities `p != q` (each with `priority + 1` representable in `size_type`),
`push(a, p)` followed by `push(b, q)` and `push(b, q)` followed by `push(a, p)` both succeed
and produce the same container state `m` (the same sub-queue sequence and contents, hence
the same `size()`, `max_priority()` and pop order), with two more elements than before. -/
theorem C22_pushes_at_distinct_priorities_commute {α : Type}
    (mq : fixed_priority_multi_queue α) (a b : α) (p q : Nat) (hne : p ≠ q)
    (hp : p < SIZE_MAX) (hq : q < SIZE_MAX) :
    ∃ m1 m2 m, mq.push a p = some m1 ∧ m1.push b q = some m ∧
      mq.push b q = some m2 ∧ m2.push a p = some m ∧
      m.size = mq.size + 2 ∧
      m.max_priority = max mq.max_priority (max (p + 1) (q + 1)) := by
  obtain ⟨m1, h1⟩ : ∃ m1, mq.push a p = some m1 := ⟨_, push_eq mq a p hp⟩
  obtain ⟨m, h2⟩ : ∃ m, m1.push b q = some m := ⟨_, push_eq m1 b q hq⟩
  obtain ⟨m2, h3⟩ : ∃ m2, mq.push b q = some m2 := ⟨_, push_eq mq b q hq⟩
  obtain ⟨m3, h4⟩ : ∃ m3, m2.push a p = some m3 := ⟨_, push_eq m2 a p hp⟩
  have l1 := push_max_priority mq m1 a p hp h1
  have l2 := push_max_priority m1 m b q hq h2
  have l3 := push_max_priority mq m2 b q hq h3
  have l4 := push_max_priority m2 m3 a p hp h4
  have hlen : m.queues.length = m3.queues.length := by
    simp only [max_priority] at l1 l2 l3 l4
    omega
  have hlev : ∀ j : Nat, m.queues[j]?.getD [] = m3.queues[j]?.getD [] := by
    intro j
    rw [push_push_levels mq m1 m a b p q hne hp hq h1 h2 j,
      push_push_levels mq m2 m3 b a q p (Ne.symm hne) hq hp h3 h4 j]
    by_cases hjp : j = p
    · subst hjp
      simp [hne]
    · simp [hjp]
  have hm : m3 = m := by
    have := eq_of_levels_eq m.queues m3.queues hlen hlev
    cases m
    cases m3
    simp only at this
    rw [this]
  rw [hm] at h4
  refine ⟨m1, m2, m, h1, h2, h3, h4, ?_, ?_⟩
  · rw [push_size m1 m b q hq h2, push_size mq m1 a p hp h1]
  · rw [l2, l1]
    omega

theorem C22_pushes_at_distinct_priorities_commute_witness :
    (4 ≠ 1 ∧ 4 < SIZE_MAX ∧ 1 < SIZE_MAX) ∧
    ∃ m1 m2 m, (⟨[[], [5, 6], [7]]⟩ : fixed_priority_multi_queue Nat).push 8 4 = some m1 ∧
      m1.push 9 1 = some m ∧
      (⟨[[], [5, 6], [7]]⟩ : fixed_priority_multi_queue Nat).push 9 1 = some m2 ∧
      m2.push 8 4 = some m ∧
      m.size = (⟨[[], [5, 6], [7]]⟩ : fixed_priority_multi_queue Nat).size + 2 ∧
      m.max_priority
        = max (⟨[[], [5, 6], [7]]⟩ : fixed_priority_multi_queue Nat).max_priority
            (max (4 + 1) (1 + 1)) :=
  ⟨⟨by decide, by decide, by decide⟩,
    C22_pushes_at_distinct_priorities_commute ⟨[[], [5, 6], [7]]⟩ 8 9 4 1
      (by decide) (by decide) (by decide)⟩

end MultiQueue
